import Mathlib

/-!
# Verification of the netex-parse pipeline

Shallow embedding of the netex-parse repository (Rust sources
`src/parser.rs`, `src/graph.rs`, `src/main.rs`) together with theorems
settling the specification claims.

Modelling conventions, used uniformly below:

* Rust machine integers (`u8`, `u16`, `u32`, `u64`, `usize`) are
  modelled as `Nat`, with explicit `% 2^w` wherever the Rust code can
  wrap.  Arithmetic follows release-mode (wrapping) semantics.
* Rust `f32` values that only flow through comparisons and casts are
  modelled as `ℚ`; a value that can be NaN is modelled as `Option ℚ`
  with `none` standing for NaN (NaN makes every `<`/`>` comparison
  false and propagates through `clamp`).
* Fallible Rust code returns `Option`/`Except`; a Rust panic is
  modelled as `none` (or the dedicated `RRes.panicked` constructor).
* Rust `HashMap`s that are only read are modelled as functions
  `Nat → Option α`; hash maps that are built up and iterated are
  modelled as association lists.
* The external xxh3 hash, the f32/bool string parsers of the Rust
  standard library and the base64 encoder are kept abstract: they are
  parameters of the embedding and the theorems quantify over them.
-/

namespace NetexParse

/-- A byte of text, as a natural number (values below 256 in practice). -/
abbrev Byte := Nat

/-! ## `parser.rs`: the three text codecs -/

/-- `NetexData::parse_minutes` (parser.rs:336).  Reads bytes 0, 1, 3, 4 of
an ASCII `HH:MM[:SS]` string; all `u16` arithmetic wraps modulo `2 ^ 16`.
Returns `none` when the buffer has fewer than 5 bytes, modelling the
out-of-bounds indexing panic. -/
def parse_minutes (bytes : List Byte) : Option Nat :=
  match bytes with
  | b0 :: b1 :: _ :: b3 :: b4 :: _ =>
    some (((b0 + 65536 - 48) % 65536 * 600 + (b1 + 65536 - 48) % 65536 * 60 +
           (b3 + 65536 - 48) % 65536 * 10 + (b4 + 65536 - 48) % 65536) % 65536)
  | _ => none

/-- `NetexData::parse_date` (parser.rs:348).  Reads bytes 2, 3, 5, 6, 8, 9
of an ASCII `YYYY-MM-DDTHH:MM:SS` string; `u32` arithmetic wraps modulo
`2 ^ 32`.  `none` models the out-of-bounds indexing panic on buffers
shorter than 10 bytes. -/
def parse_date (bytes : List Byte) : Option Nat :=
  match bytes with
  | _ :: _ :: b2 :: b3 :: _ :: b5 :: b6 :: _ :: b8 :: b9 :: _ =>
    some (((b2 + 2 ^ 32 - 48) % 2 ^ 32 * 100000 + (b3 + 2 ^ 32 - 48) % 2 ^ 32 * 10000 +
           (b5 + 2 ^ 32 - 48) % 2 ^ 32 * 1000 + (b6 + 2 ^ 32 - 48) % 2 ^ 32 * 100 +
           (b8 + 2 ^ 32 - 48) % 2 ^ 32 * 10 + (b9 + 2 ^ 32 - 48) % 2 ^ 32) % 2 ^ 32)
  | _ => none

/-- One step of `NetexData::parse_day_bit_group` (parser.rs:375):
`result |= (value[i] - ASCII_ZERO) << i` on `u8`, with wrapping
subtraction and shift. -/
def dayBit (b i : Nat) : Nat := (((b + 256 - 48) % 256) <<< i) % 256

/-- `NetexData::parse_day_bit_group` (parser.rs:375): ors together the
eight shifted bits of one 8-byte group.  `none` models the indexing
panic on groups shorter than 8 bytes (bytes past index 7 are ignored,
as in the source). -/
def parse_day_bit_group (g : List Byte) : Option Byte :=
  match g with
  | b0 :: b1 :: b2 :: b3 :: b4 :: b5 :: b6 :: b7 :: _ =>
    some (((((((dayBit b0 0 ||| dayBit b1 1) ||| dayBit b2 2) ||| dayBit b3 3) |||
        dayBit b4 4) ||| dayBit b5 5) ||| dayBit b6 6) ||| dayBit b7 7)
  | _ => none

/-- Rust `slice::chunks(8)`: groups of 8, with a shorter final group when
the length is not a multiple of 8. -/
def chunks8 : List Byte → List (List Byte)
  | [] => []
  | a :: b :: c :: d :: e :: f :: g :: h :: rest => [a, b, c, d, e, f, g, h] :: chunks8 rest
  | l => [l]

/-- The padding step of `NetexData::parse_day_bits` (parser.rs:362):
append `'0'` bytes up to the next multiple of 8, appending nothing when
the length already is a multiple of 8. -/
def pad_day_bits (l : List Byte) : List Byte :=
  let pad_len := 8 - l.length % 8
  if pad_len ≠ 8 then l ++ List.replicate pad_len 48 else l

/-- `NetexData::parse_day_bits` (parser.rs:362): pad, then pack each
8-byte chunk.  `none` models a panic inside a group (never reached:
padding makes every chunk 8 bytes long). -/
def parse_day_bits (l : List Byte) : Option (List Byte) :=
  (chunks8 (pad_day_bits l)).mapM parse_day_bit_group

/-- Spec-side helper: pack a list of bits, least-significant first. -/
def packLSB : List Bool → Nat
  | [] => 0
  | b :: bs => (if b then 1 else 0) + 2 * packLSB bs

/-- Spec-side day-bits codec, following the words of the spec: right-pad
with `'0'` to the next multiple of 8, then pack each 8-character group
least-significant-bit first. -/
def dayBitsSpec (l : List Byte) : List Byte :=
  (chunks8 (l ++ List.replicate ((8 - l.length % 8) % 8) 48)).map
    (fun g => packLSB (g.map (fun b => b == 49)))

/-! ### Day-bits codec lemmas (claim C9) -/

theorem parse_day_bit_group_pack (b0 b1 b2 b3 b4 b5 b6 b7 : Byte)
    (h0 : b0 = 48 ∨ b0 = 49) (h1 : b1 = 48 ∨ b1 = 49) (h2 : b2 = 48 ∨ b2 = 49)
    (h3 : b3 = 48 ∨ b3 = 49) (h4 : b4 = 48 ∨ b4 = 49) (h5 : b5 = 48 ∨ b5 = 49)
    (h6 : b6 = 48 ∨ b6 = 49) (h7 : b7 = 48 ∨ b7 = 49) :
    parse_day_bit_group [b0, b1, b2, b3, b4, b5, b6, b7] =
      some (packLSB [b0 == 49, b1 == 49, b2 == 49, b3 == 49,
                     b4 == 49, b5 == 49, b6 == 49, b7 == 49]) := by
  rcases h0 with rfl | rfl <;> rcases h1 with rfl | rfl <;> rcases h2 with rfl | rfl <;>
    rcases h3 with rfl | rfl <;> rcases h4 with rfl | rfl <;> rcases h5 with rfl | rfl <;>
    rcases h6 with rfl | rfl <;> rcases h7 with rfl | rfl <;> rfl

theorem pad_day_bits_eq (l : List Byte) :
    pad_day_bits l = l ++ List.replicate ((8 - l.length % 8) % 8) 48 := by
  unfold pad_day_bits
  by_cases h : l.length % 8 = 0
  · simp [h]
  · have h8 : l.length % 8 < 8 := Nat.mod_lt _ (by norm_num)
    have hne : 8 - l.length % 8 ≠ 8 := by omega
    have hmod : (8 - l.length % 8) % 8 = 8 - l.length % 8 := by omega
    rw [hmod, if_pos hne]

theorem pad_day_bits_length (l : List Byte) : (pad_day_bits l).length % 8 = 0 := by
  rw [pad_day_bits_eq, List.length_append, List.length_replicate]
  omega

theorem mapM_chunks8 (l : List Byte) (hlen : l.length % 8 = 0)
    (hb : ∀ b ∈ l, b = 48 ∨ b = 49) :
    (chunks8 l).mapM parse_day_bit_group =
      some ((chunks8 l).map (fun g => packLSB (g.map (fun b => b == 49)))) := by
  induction l using chunks8.induct with
  | case1 => rfl
  | case2 a b c d e f g h rest ih =>
      have hrest : rest.length % 8 = 0 := by
        simp only [List.length_cons] at hlen
        omega
      have hb' : ∀ x ∈ rest, x = 48 ∨ x = 49 := fun x hx => hb x (by simp [hx])
      have hg := parse_day_bit_group_pack a b c d e f g h
        (hb a (by simp)) (hb b (by simp)) (hb c (by simp)) (hb d (by simp))
        (hb e (by simp)) (hb f (by simp)) (hb g (by simp)) (hb h (by simp))
      simp only [chunks8, List.mapM_cons, List.map_cons, hg, ih hrest hb',
        Option.bind_eq_bind, Option.some_bind]
      rfl
  | case3 l hnil hcons =>
      exfalso
      rcases l with _ | ⟨a, l⟩; · exact hnil rfl
      rcases l with _ | ⟨b, l⟩; · simp at hlen
      rcases l with _ | ⟨c, l⟩; · simp at hlen
      rcases l with _ | ⟨d, l⟩; · simp at hlen
      rcases l with _ | ⟨e, l⟩; · simp at hlen
      rcases l with _ | ⟨f, l⟩; · simp at hlen
      rcases l with _ | ⟨g, l⟩; · simp at hlen
      rcases l with _ | ⟨h, l⟩; · simp at hlen
      exact hcons a b c d e f g h l rfl

/-- **Claim C9.**  The day-bits codec right-pads any ASCII `'0'`/`'1'`
string with `'0'` to the next multiple of 8 (adding nothing when the
length is already a multiple of 8) and packs each 8-character group into
one byte least-significant-bit first; in particular
`parse_day_bits "1111111011" = [127, 3]`. -/
theorem day_bits_codec (l : List Byte) (hb : ∀ b ∈ l, b = 48 ∨ b = 49) :
    pad_day_bits l = l ++ List.replicate ((8 - l.length % 8) % 8) 48 ∧
    parse_day_bits l = some (dayBitsSpec l) ∧
    parse_day_bits [49, 49, 49, 49, 49, 49, 49, 48, 49, 49] = some [127, 3] := by
  refine ⟨pad_day_bits_eq l, ?_, by rfl⟩
  have hb' : ∀ b ∈ pad_day_bits l, b = 48 ∨ b = 49 := by
    rw [pad_day_bits_eq]
    intro b hbmem
    rcases List.mem_append.1 hbmem with h | h
    · exact hb b h
    · exact Or.inl (List.eq_of_mem_replicate h)
  rw [parse_day_bits, mapM_chunks8 _ (pad_day_bits_length l) hb', dayBitsSpec,
    pad_day_bits_eq]

/-- Witness for `day_bits_codec` at a concrete input. -/
theorem day_bits_codec_witness :
    parse_day_bits [49, 49, 49, 49, 49, 49, 49, 48, 49, 49] = some [127, 3] :=
  (day_bits_codec [49, 49, 49, 49, 49, 49, 49, 48, 49, 49] (by decide)).2.2

/-! ## `graph.rs`: cluster node ids (claim C5)

`Nodes::from_data` (graph.rs:151-158) computes, for each cluster, the
list of member stop ids, then `sort_unstable`, `dedup` (which removes
consecutive duplicates) and a left xor-fold via `reduce`, which panics
(`unwrap`) on an empty cluster. -/

/-- Rust `Vec::dedup`: remove consecutive repeated elements. -/
def dedupAdj : List Nat → List Nat
  | [] => []
  | [x] => [x]
  | x :: y :: rest => if x = y then dedupAdj (y :: rest) else x :: dedupAdj (y :: rest)

/-- The node id computed for a cluster from the list of its member stop
id handles: sort, remove consecutive duplicates, xor-fold.  `none`
models the `unwrap` panic on an empty cluster. -/
def clusterId (ids : List Nat) : Option Nat :=
  match dedupAdj ids.mergeSort with
  | [] => none
  | x :: xs => some (xs.foldl (fun l r => l ^^^ r) x)

theorem mem_dedupAdj {a : Nat} : ∀ (l : List Nat), a ∈ dedupAdj l ↔ a ∈ l
  | [] => Iff.rfl
  | [x] => Iff.rfl
  | x :: y :: rest => by
    rw [dedupAdj]
    by_cases h : x = y
    · subst h
      rw [if_pos rfl, mem_dedupAdj (x :: rest), List.mem_cons, List.mem_cons,
        List.mem_cons]
      tauto
    · simp only [if_neg h, List.mem_cons, mem_dedupAdj (y :: rest), List.mem_cons]

theorem dedupAdj_pairwise_lt :
    ∀ {l : List Nat}, l.Sorted (· ≤ ·) → (dedupAdj l).Pairwise (· < ·)
  | [], _ => List.Pairwise.nil
  | [x], _ => by simp [dedupAdj]
  | x :: y :: rest, hs => by
    have hxy : x ≤ y := (List.sorted_cons.1 hs).1 y (by simp)
    have hs' : (y :: rest).Sorted (· ≤ ·) := (List.sorted_cons.1 hs).2
    rw [dedupAdj]
    by_cases h : x = y
    · exact if_pos h ▸ dedupAdj_pairwise_lt hs'
    · rw [if_neg h]
      refine List.pairwise_cons.2 ⟨?_, dedupAdj_pairwise_lt hs'⟩
      intro a ha
      have hya : y ≤ a := by
        rcases (List.mem_cons).1 ((mem_dedupAdj _).1 ha) with rfl | hmem
        · exact le_refl a
        · exact (List.sorted_cons.1 hs').1 a hmem
      exact lt_of_lt_of_le (lt_of_le_of_ne hxy h) hya

theorem dedupAdj_mergeSort_eq {l₁ l₂ : List Nat} (h : l₁.toFinset = l₂.toFinset) :
    dedupAdj l₁.mergeSort = dedupAdj l₂.mergeSort := by
  have hp₁ := dedupAdj_pairwise_lt (List.sorted_mergeSort' l₁)
  have hp₂ := dedupAdj_pairwise_lt (List.sorted_mergeSort' l₂)
  have hmem : ∀ a, a ∈ dedupAdj l₁.mergeSort ↔ a ∈ dedupAdj l₂.mergeSort := by
    intro a
    rw [mem_dedupAdj, mem_dedupAdj, (List.mergeSort_perm l₁ _).mem_iff,
      (List.mergeSort_perm l₂ _).mem_iff, ← List.mem_toFinset, h, List.mem_toFinset]
  have hperm := (List.perm_ext_iff_of_nodup
    (hp₁.imp ne_of_lt) (hp₂.imp ne_of_lt)).2 hmem
  exact List.eq_of_perm_of_sorted hperm (hp₁.imp le_of_lt) (hp₂.imp le_of_lt)

/-- **Claim C5.**  The cluster node id — xor-fold of the deduplicated,
sorted member stop ids — only depends on the set of member ids: it is
invariant under permutations of the cluster's stops and under duplicated
id values, so shuffling input order yields the same node id for the same
cluster membership. -/
theorem clusterId_set_invariant (l₁ l₂ : List Nat) (h : l₁.toFinset = l₂.toFinset) :
    clusterId l₁ = clusterId l₂ := by
  rw [clusterId, clusterId, dedupAdj_mergeSort_eq h]

/-- Witness for `clusterId_set_invariant`: a permuted cluster with a
duplicated id gets the same node id. -/
theorem clusterId_set_invariant_witness :
    clusterId [5, 3, 5, 9] = clusterId [9, 5, 3] :=
  clusterId_set_invariant [5, 3, 5, 9] [9, 5, 3] (by decide)

/-! ## `graph.rs`: graph data model -/

/-- `graph::Node` (graph.rs:11).  Centroid coordinates are `f32` in the
source; here ℚ (the trigonometric centroid/distance computations are kept
abstract, see `update_walk`). -/
structure Node where
  id : Nat
  short_name : String
  long : ℚ
  lat : ℚ
deriving DecidableEq

/-- `graph::Journey` (graph.rs:20). -/
structure Journey where
  departure : Nat
  arrival : Nat
  transport_mode : String
  operating_period : Nat
  line : String
  controller : String
deriving DecidableEq

/-- `graph::OperatingPeriod` (graph.rs:35).  The Rust fields `from` and
`to` are Lean keywords and get a trailing underscore. -/
structure OperatingPeriod where
  from_ : Nat
  to_ : Nat
  valid_day_bits : String
  valid_day : List Byte
deriving DecidableEq

/-- `graph::Timetable` (graph.rs:46). -/
structure Timetable where
  journeys : List Journey
  periods : List OperatingPeriod
deriving DecidableEq

/-- `Timetable::default()`. -/
def Timetable.default : Timetable := ⟨[], []⟩

/-- `graph::Edge` (graph.rs:54). -/
structure Edge where
  start_node : Nat
  end_node : Nat
  timetable : Timetable
  walk_seconds : Nat
deriving DecidableEq

/-- `graph::Indices` (graph.rs:68). -/
structure Indices where
  node : Nat
  data : Nat
  stop : Nat
deriving DecidableEq

/-- The `Nodes` lookup structure (graph.rs:82).  The two hash maps are
modelled as functions, the node vector as a list. -/
structure Nodes where
  vec : List Node
  ref_map : Nat → Option Indices
  id_map : Nat → Option Nat

/-- The edge accumulator `HashMap<(usize, usize), Edge>`, modelled as an
association list (only membership and per-key values matter; iteration
order of the Rust hash map is unspecified anyway). -/
abbrev EdgeMap := List ((Nat × Nat) × Edge)

/-- Point update of the edge at an existing key. -/
def emUpdate (k : Nat × Nat) (f : Edge → Edge) : EdgeMap → EdgeMap
  | [] => []
  | (k', e) :: rest => if k' = k then (k', f e) :: rest else (k', e) :: emUpdate k f rest

/-- `HashMap::entry(k).or_insert(e)` followed by an update of the entry. -/
def emUpsert (k : Nat × Nat) (dflt : Edge) (f : Edge → Edge) (m : EdgeMap) : EdgeMap :=
  if (m.lookup k).isSome then emUpdate k f m else m ++ [(k, f dflt)]

/-! ## `graph.rs`: the speed filter (claim C4) -/

/-- The journey duration in minutes computed by `Graph::filter_journeys`
(graph.rs:410-416): the no-op `(x % 60) + (x / 60) * 60` normalization,
the midnight wrap `+ 24*60` when arrival is smaller, and the final `u16`
subtraction; `u16` arithmetic wraps modulo `2 ^ 16`. -/
def journeyMinutes (j : Journey) : Nat :=
  ((if j.arrival % 60 + j.arrival / 60 * 60 < j.departure % 60 + j.departure / 60 * 60
    then (j.arrival % 60 + j.arrival / 60 * 60 + 24 * 60) % 65536
    else j.arrival % 60 + j.arrival / 60 * 60) + 65536 -
    (j.departure % 60 + j.departure / 60 * 60)) % 65536

/-- The retention predicate of `Graph::filter_journeys` (graph.rs:410):
`speed < 325.0 || (minutes < 3 && distance < 3.0)`.  In the source,
`speed` is the f32 division `distance / (minutes / 60.0)`; when
`minutes = 0` that division yields `∞` or NaN, and either way
`speed < 325.0` is false, which the `minutes = 0` guard reproduces. -/
def retainJourney (distance : ℚ) (j : Journey) : Bool :=
  (if journeyMinutes j = 0 then false
    else decide (distance / ((journeyMinutes j : ℚ) / 60) < 325)) ||
  (decide (journeyMinutes j < 3) && decide (distance < (3 : ℚ)))

/-- `Graph::filter_journeys` (graph.rs:403): retain only physically reasonable
journeys of an edge, given the great-circle distance between its
endpoint centroids. -/
def filter_journeys (distance : ℚ) (js : List Journey) : List Journey :=
  js.filter (retainJourney distance)

/-- The duration in minutes as stated in the claim: arrival minus
departure, with `24*60` added when the arrival is smaller. -/
def claimMinutes (j : Journey) : Nat :=
  if j.arrival < j.departure then j.arrival + 24 * 60 - j.departure
  else j.arrival - j.departure

theorem journeyMinutes_eq (j : Journey) (hd : j.departure < 65536)
    (ha : j.arrival < 65536)
    (hw : j.arrival < j.departure → j.departure ≤ j.arrival + 24 * 60) :
    journeyMinutes j = claimMinutes j := by
  unfold journeyMinutes claimMinutes
  split_ifs <;> omega

/-- **Claim C4.**  The speed filter retains a journey iff its speed
(distance over duration in hours) is strictly below 325 km/h, or the
duration is under 3 minutes and the distance under 3 km; a journey of
10 km in 1 minute is dropped, one of 0.5 km in 1 minute is retained. -/
theorem speed_filter_iff :
    (∀ (distance : ℚ) (j : Journey), j.departure < 65536 → j.arrival < 65536 →
      (j.arrival < j.departure → j.departure ≤ j.arrival + 24 * 60) →
      0 < claimMinutes j →
      (retainJourney distance j = true ↔
        distance / ((claimMinutes j : ℚ) / 60) < 325 ∨
          (claimMinutes j < 3 ∧ distance < 3))) ∧
    retainJourney 10 ⟨480, 481, "", 0, "", ""⟩ = false ∧
    retainJourney (1 / 2) ⟨480, 481, "", 0, "", ""⟩ = true := by
  refine ⟨?_, by norm_num [retainJourney, journeyMinutes], by norm_num [retainJourney, journeyMinutes]⟩
  intro distance j hd ha hw hpos
  rw [retainJourney, journeyMinutes_eq j hd ha hw, if_neg hpos.ne']
  simp only [Bool.or_eq_true, decide_eq_true_eq, Bool.and_eq_true]

/-- Witness for `speed_filter_iff` at the claim's concrete inputs. -/
theorem speed_filter_iff_witness :
    retainJourney (1 / 2) ⟨480, 481, "", 0, "", ""⟩ = true ↔
      (1 / 2 : ℚ) / ((claimMinutes ⟨480, 481, "", 0, "", ""⟩ : ℚ) / 60) < 325 ∨
        (claimMinutes ⟨480, 481, "", 0, "", ""⟩ < 3 ∧ (1 / 2 : ℚ) < 3) :=
  speed_filter_iff.1 (1 / 2) ⟨480, 481, "", 0, "", ""⟩
    (by decide) (by decide) (by decide) (by decide)

/-! ## `graph.rs`: the walk overlay (claim C2) -/

/-- `graph::WalkEdge` (graph.rs:75); `end` is a Lean keyword and gets a
trailing underscore. -/
structure WalkEdge where
  start : Nat
  end_ : Nat
  duration : ℚ

/-- The Rust cast `f32 as u16` applied to the walk duration: truncation
toward zero, saturating at the type bounds (a negative duration becomes
0; deserialized JSON numbers cannot be NaN). -/
def f32_as_u16 (d : ℚ) : Nat := min ⌊d⌋.toNat 65535

/-- `Graph::update_walk` (graph.rs:370).  The great-circle distance
computation (f32 trigonometry, graph.rs:437) is passed in as an abstract
function `gcd` of the two endpoint coordinate pairs.  `none` models the
out-of-bounds vector indexing panic (unreachable for the maps built by
`Nodes::from_data`, whose `id_map` stores valid indices); an unresolved
endpoint prints a diagnostic and leaves the edge map unchanged. -/
def update_walk (gcd : ℚ × ℚ → ℚ × ℚ → ℚ) (walk_edge : WalkEdge) (nodes : Nodes)
    (edges : EdgeMap) : Option EdgeMap :=
  match nodes.id_map walk_edge.start, nodes.id_map walk_edge.end_ with
  | some start_idx, some end_idx =>
    match nodes.vec[start_idx]?, nodes.vec[end_idx]? with
    | some start_node, some end_node =>
      let distance := gcd (start_node.long, start_node.lat) (end_node.long, end_node.lat)
      if 1 < distance then some edges
      else
        let ws := f32_as_u16 walk_edge.duration
        let forward := emUpsert (start_idx, end_idx)
          ⟨start_idx, end_idx, Timetable.default, 65535⟩
          (fun e => { e with walk_seconds := ws }) edges
        some (emUpsert (end_idx, start_idx)
          ⟨end_idx, start_idx, Timetable.default, 65535⟩
          (fun e => { e with walk_seconds := ws }) forward)
    | _, _ => none
  | _, _ => some edges

theorem lookup_cons (k k' : Nat × Nat) (a : Edge) (rest : EdgeMap) :
    List.lookup k ((k', a) :: rest) = if k = k' then some a else rest.lookup k := by
  by_cases h : k = k'
  · subst h
    simp [List.lookup]
  · have hb : (k == k') = false := beq_eq_false_iff_ne.mpr h
    simp [List.lookup, hb, h]

theorem lookup_nil (k : Nat × Nat) : List.lookup k ([] : EdgeMap) = none := rfl

theorem lookup_emUpdate (k k₂ : Nat × Nat) (f : Edge → Edge) (m : EdgeMap) :
    (emUpdate k f m).lookup k₂ =
      if k₂ = k then (m.lookup k).map f else m.lookup k₂ := by
  induction m with
  | nil => simp [emUpdate, lookup_nil]
  | cons p rest ih =>
    rcases p with ⟨k', a⟩
    rw [emUpdate]
    by_cases hk : k' = k
    · subst hk
      rw [if_pos rfl]
      by_cases hk2 : k₂ = k'
      · subst hk2
        simp [lookup_cons]
      · simp [lookup_cons, hk2]
    · rw [if_neg hk]
      have hk' : ¬k = k' := fun h => hk h.symm
      by_cases hk2 : k₂ = k'
      · subst hk2
        have hne : ¬k₂ = k := hk
        simp [lookup_cons, hne]
      · simp [lookup_cons, hk2, hk', ih]

theorem lookup_append (m₁ m₂ : EdgeMap) (k : Nat × Nat) :
    (m₁ ++ m₂).lookup k = ((m₁.lookup k).or (m₂.lookup k)) := by
  induction m₁ with
  | nil => simp [List.lookup]
  | cons p rest ih =>
    rcases p with ⟨k', a⟩
    rw [List.cons_append, lookup_cons, lookup_cons]
    by_cases hk : k = k'
    · rw [if_pos hk, if_pos hk]
      rfl
    · rw [if_neg hk, if_neg hk, ih]

theorem lookup_emUpsert (k k₂ : Nat × Nat) (d : Edge) (f : Edge → Edge) (m : EdgeMap) :
    (emUpsert k d f m).lookup k₂ =
      if k₂ = k then some (f ((m.lookup k).getD d)) else m.lookup k₂ := by
  rw [emUpsert]
  cases h : m.lookup k with
  | some a =>
    rw [show (some a).isSome = true from rfl, if_pos rfl, lookup_emUpdate, h]
    rfl
  | none =>
    rw [show (none : Option Edge).isSome = false from rfl,
      if_neg Bool.false_ne_true, lookup_append]
    by_cases hk : k₂ = k
    · subst hk
      rw [h]
      simp [lookup_cons]
    · simp [lookup_cons, hk, lookup_nil]

/-- A two-node `Nodes` table at identical coordinates (so the source's
great-circle distance at these inputs is not above 1 km) used by the
walk-overlay counterexample and witness. -/
def walkNodes : Nodes :=
  ⟨[⟨1, "A", 10, 50⟩, ⟨2, "B", 10, 50⟩],
   fun _ => none,
   fun i => if i = 1 then some 0 else if i = 2 then some 1 else none⟩

/-- **Counterexample to claim C2 as stated.**  A walk entry with
duration 1.5 s between resolvable endpoints at distance 0 produces
`walk_seconds = 1` (the Rust `as u16` cast truncates), while the claim's
`round(duration)` is 2. -/
theorem update_walk_truncates_not_rounds :
    ((update_walk (fun _ _ => 0) ⟨1, 2, 3 / 2⟩ walkNodes []).bind
        fun m => (m.lookup (0, 1)).map Edge.walk_seconds) = some 1 ∧
      round (3 / 2 : ℚ) = 2 := by
  have hcast : f32_as_u16 (3 / 2) = 1 := by norm_num [f32_as_u16]
  constructor
  · have h1 : walkNodes.id_map 1 = some 0 := rfl
    have h2 : walkNodes.id_map 2 = some 1 := rfl
    have hv0 : walkNodes.vec[0]? = some ⟨1, "A", 10, 50⟩ := rfl
    have hv1 : walkNodes.vec[1]? = some ⟨2, "B", 10, 50⟩ := rfl
    rw [update_walk]
    simp only [h1, h2, hv0, hv1, hcast]
    norm_num [lookup_emUpsert]
  · norm_num [round_eq]

/-- **Claim C2, amended.**  For a walk entry whose endpoints resolve and
whose centroids are at great-circle distance at most 1 km, the overlay
produces both edges `(start, end)` and `(end, start)` with
`walk_seconds` equal to the duration cast by `f32 as u16` (truncation
toward zero, saturating) — not `round(duration)` — and edges newly
created by the overlay carry an empty timetable. -/
theorem walk_overlay_symmetric (gcd : ℚ × ℚ → ℚ × ℚ → ℚ) (w : WalkEdge) (ns : Nodes)
    (edges : EdgeMap) (s e : Nat) (sn en : Node)
    (hs : ns.id_map w.start = some s) (he : ns.id_map w.end_ = some e)
    (hsn : ns.vec[s]? = some sn) (hen : ns.vec[e]? = some en)
    (hdist : gcd (sn.long, sn.lat) (en.long, en.lat) ≤ 1) :
    ∃ m, update_walk gcd w ns edges = some m ∧
      (∃ ef, m.lookup (s, e) = some ef ∧
        ef.walk_seconds = f32_as_u16 w.duration ∧
        (edges.lookup (s, e) = none → ef.timetable = Timetable.default)) ∧
      (∃ eb, m.lookup (e, s) = some eb ∧
        eb.walk_seconds = f32_as_u16 w.duration ∧
        (edges.lookup (e, s) = none → eb.timetable = Timetable.default)) := by
  rw [update_walk]
  simp only [hs, he, hsn, hen]
  rw [if_neg (not_lt.2 hdist)]
  refine ⟨_, rfl, ?_, ?_⟩
  · by_cases hse : s = e
    · subst hse
      rw [lookup_emUpsert, if_pos rfl]
      refine ⟨_, rfl, rfl, fun hnone => ?_⟩
      rw [lookup_emUpsert, if_pos rfl, hnone]
      rfl
    · have hne : ((s, e) : Nat × Nat) ≠ (e, s) := by
        simp [Prod.ext_iff, hse]
      rw [lookup_emUpsert, if_neg hne, lookup_emUpsert, if_pos rfl]
      refine ⟨_, rfl, rfl, fun hnone => ?_⟩
      rw [hnone]
      rfl
  · rw [lookup_emUpsert, if_pos rfl]
    refine ⟨_, rfl, rfl, fun hnone => ?_⟩
    by_cases hse : s = e
    · subst hse
      rw [lookup_emUpsert, if_pos rfl, hnone]
      rfl
    · have hne : ((e, s) : Nat × Nat) ≠ (s, e) := by
        simp [Prod.ext_iff, Ne.symm hse]
      rw [lookup_emUpsert, if_neg hne, hnone]
      rfl

/-- Witness for `walk_overlay_symmetric` at a concrete walk entry. -/
theorem walk_overlay_symmetric_witness :
    ∃ m, update_walk (fun _ _ => 0) ⟨1, 2, 3 / 2⟩ walkNodes [] = some m ∧
      (∃ ef, m.lookup (0, 1) = some ef ∧
        ef.walk_seconds = f32_as_u16 ((3 : ℚ) / 2) ∧
        (([] : EdgeMap).lookup (0, 1) = none → ef.timetable = Timetable.default)) ∧
      (∃ eb, m.lookup (1, 0) = some eb ∧
        eb.walk_seconds = f32_as_u16 ((3 : ℚ) / 2) ∧
        (([] : EdgeMap).lookup (1, 0) = none → eb.timetable = Timetable.default)) :=
  walk_overlay_symmetric (fun _ _ => 0) ⟨1, 2, 3 / 2⟩ walkNodes [] 0 1
    ⟨1, "A", 10, 50⟩ ⟨2, "B", 10, 50⟩ rfl rfl rfl rfl (by decide)

/-! ## `parser.rs`: entity records -/

/-- An `f32` value: `none` models NaN, `some q` any non-NaN value
(infinities behave like sufficiently large rationals in every context
of this program: comparisons and clamping). -/
abbrev QF := Option ℚ

/-- `parser::Authority` (parser.rs:3). -/
structure Authority where
  id : Nat
  short_name : String
deriving DecidableEq

/-- `parser::Line` (parser.rs:9). -/
structure Line where
  id : Nat
  short_name : String
  authority : Nat
deriving DecidableEq

/-- `parser::DayTypeAssignment` (parser.rs:16). -/
structure DayTypeAssignment where
  operating_period : Nat
  day_type : Nat
  is_available : Bool
deriving DecidableEq

/-- `parser::UicOperatingPeriod` (parser.rs:23). -/
structure UicOperatingPeriod where
  id : Nat
  from_ : Nat
  to_ : Nat
  valid_day_bits : List Byte
deriving DecidableEq

/-- `parser::ScheduledStopPoint` (parser.rs:31). -/
structure ScheduledStopPoint where
  id : Nat
  short_name : String
  long : QF
  lat : QF
deriving DecidableEq

/-- `parser::StopPointInJourneyPattern` (parser.rs:39). -/
structure StopPointInJourneyPattern where
  id : Nat
  scheduled_stop_point : Nat
deriving DecidableEq

/-- `parser::ServiceJourneyPattern` (parser.rs:45). -/
structure ServiceJourneyPattern where
  stops : List StopPointInJourneyPattern
  line : Nat
  id : Nat
deriving DecidableEq

/-- `parser::TimetabledPassingTime` (parser.rs:52). -/
structure TimetabledPassingTime where
  stop_point_in_journey_pattern : Nat
  arrival : Nat
  departure : Nat
deriving DecidableEq

/-- `parser::ServiceJourney` (parser.rs:59). -/
structure ServiceJourney where
  passing_times : List TimetabledPassingTime
  day_type : Nat
  transport_mode : String
  pattern_ref : Nat
deriving DecidableEq

/-- `parser::NetexData` (parser.rs:67). -/
structure NetexData where
  scheduled_stop_points : List ScheduledStopPoint
  service_journey_patterns : List ServiceJourneyPattern
  service_journeys : List ServiceJourney
  operating_periods : List UicOperatingPeriod
  day_type_assignments : List DayTypeAssignment
  lines : List Line
  authorities : List Authority
deriving DecidableEq

/-! ## `graph.rs`: the per-edge operating-period remap (claim C3) -/

/-- `Graph::lookup_operating_period` (graph.rs:423): walk the corpus,
subtracting each document's period count from the global index. -/
def lookup_operating_period : List NetexData → Nat → Option UicOperatingPeriod
  | [], _ => none
  | d :: rest, g =>
    if h : g < d.operating_periods.length then some (d.operating_periods[g])
    else lookup_operating_period rest (g - d.operating_periods.length)

/-- The `global_to_local` map building loop of `Graph::from_data`
(graph.rs:335-343), as an association list in insertion order together
with the running counter. -/
def global_to_local_aux (acc : List (Nat × Nat)) (counter : Nat) :
    List Nat → List (Nat × Nat)
  | [] => acc
  | g :: gs =>
    if (acc.lookup g).isSome then global_to_local_aux acc counter gs
    else global_to_local_aux (acc ++ [(g, counter)]) (counter + 1) gs

/-- The finished `global_to_local` map for an edge's journey list. -/
def global_to_local (js : List Journey) : List (Nat × Nat) :=
  global_to_local_aux [] 0 (js.map (·.operating_period))

/-- Conversion of a `UicOperatingPeriod` into a per-edge
`OperatingPeriod` (graph.rs:349-354); the base64 encoder is abstract. -/
def convert_period (b64 : List Byte → String) (u : UicOperatingPeriod) : OperatingPeriod :=
  ⟨u.from_, u.to_, b64 u.valid_day_bits, u.valid_day_bits⟩

/-- The per-edge local period remap of `Graph::from_data`
(graph.rs:334-362): build `global_to_local`, fill the `local_ops` array
(slot `local` receives the period looked up for its `global`; the array
is modelled in insertion order, which by construction is local-index
order), rewrite every journey's `operating_period`.  `none` models the
two `expect` panics. -/
def remap_periods (b64 : List Byte → String) (data : List NetexData)
    (js : List Journey) : Option (List Journey × List OperatingPeriod) :=
  let g2l := global_to_local js
  match g2l.mapM (fun p => (lookup_operating_period data p.1).map (convert_period b64)) with
  | none => none
  | some local_ops =>
    match js.mapM (fun j => (g2l.lookup j.operating_period).map
        (fun l => { j with operating_period := l })) with
    | none => none
    | some js' => some (js', local_ops)

/-- Spec-side: the distinct elements of a list in first-seen order,
relative to an already-seen set. -/
def firstSeenAux (seen : List Nat) : List Nat → List Nat
  | [] => []
  | g :: gs => if g ∈ seen then firstSeenAux seen gs else g :: firstSeenAux (g :: seen) gs

/-- Spec-side: the distinct elements of a list in first-seen order. -/
def firstSeen (l : List Nat) : List Nat := firstSeenAux [] l

theorem lookupN_cons (g k v : Nat) (rest : List (Nat × Nat)) :
    List.lookup g ((k, v) :: rest) = if g = k then some v else rest.lookup g := by
  by_cases h : g = k
  · subst h
    simp [List.lookup]
  · have hb : (g == k) = false := beq_eq_false_iff_ne.mpr h
    simp [List.lookup, hb, h]

theorem lookupN_isSome_iff {m : List (Nat × Nat)} {g : Nat} :
    (m.lookup g).isSome = true ↔ g ∈ m.map Prod.fst := by
  induction m with
  | nil => simp [List.lookup]
  | cons p rest ih =>
    rcases p with ⟨k, v⟩
    rw [lookupN_cons]
    by_cases h : g = k
    · simp [h]
    · simp [h, ih]

theorem mem_firstSeenAux {x : Nat} :
    ∀ (l seen : List Nat), x ∈ firstSeenAux seen l ↔ x ∈ l ∧ x ∉ seen
  | [], seen => by simp [firstSeenAux]
  | g :: gs, seen => by
    rw [firstSeenAux]
    by_cases hg : g ∈ seen
    · rw [if_pos hg, mem_firstSeenAux]
      constructor
      · exact fun ⟨h1, h2⟩ => ⟨List.mem_cons_of_mem g h1, h2⟩
      · rintro ⟨h1, h2⟩
        rcases List.mem_cons.1 h1 with rfl | h1
        · exact absurd hg h2
        · exact ⟨h1, h2⟩
    · rw [if_neg hg]
      simp only [List.mem_cons, mem_firstSeenAux gs, List.mem_cons]
      by_cases hx : x = g
      · subst hx
        simp [hg]
      · constructor
        · rintro (rfl | ⟨h1, h2⟩)
          · exact absurd rfl hx
          · exact ⟨Or.inr h1, fun hs => h2 (Or.inr hs)⟩
        · rintro ⟨h1, h2⟩
          rcases h1 with rfl | h1
          · exact absurd rfl hx
          · refine Or.inr ⟨h1, fun hs => ?_⟩
            rcases hs with rfl | hs
            · exact hx rfl
            · exact h2 hs

theorem nodup_firstSeenAux : ∀ (l seen : List Nat), (firstSeenAux seen l).Nodup
  | [], _ => List.Pairwise.nil
  | g :: gs, seen => by
    rw [firstSeenAux]
    by_cases hg : g ∈ seen
    · rw [if_pos hg]
      exact nodup_firstSeenAux gs seen
    · rw [if_neg hg]
      refine List.nodup_cons.2 ⟨fun hmem => ?_, nodup_firstSeenAux gs (g :: seen)⟩
      exact ((mem_firstSeenAux _ _).1 hmem).2 (List.mem_cons_self g seen)

theorem firstSeenAux_congr :
    ∀ (l : List Nat) {s₁ s₂ : List Nat}, (∀ x, x ∈ s₁ ↔ x ∈ s₂) →
      firstSeenAux s₁ l = firstSeenAux s₂ l
  | [], _, _, _ => rfl
  | g :: gs, s₁, s₂, h => by
    rw [firstSeenAux, firstSeenAux]
    by_cases hg : g ∈ s₁
    · rw [if_pos hg, if_pos ((h g).1 hg)]
      exact firstSeenAux_congr gs h
    · rw [if_neg hg, if_neg (fun hx => hg ((h g).2 hx))]
      refine congrArg _ (firstSeenAux_congr gs fun x => ?_)
      simp only [List.mem_cons, h x]

theorem g2l_aux_keys :
    ∀ (gs : List Nat) (acc : List (Nat × Nat)) (c : Nat),
      (global_to_local_aux acc c gs).map Prod.fst
        = acc.map Prod.fst ++ firstSeenAux (acc.map Prod.fst) gs
  | [], acc, c => by simp [global_to_local_aux, firstSeenAux]
  | g :: gs, acc, c => by
    rw [global_to_local_aux, firstSeenAux]
    by_cases hg : (acc.lookup g).isSome = true
    · rw [if_pos hg, if_pos (lookupN_isSome_iff.1 hg), g2l_aux_keys gs acc c]
    · rw [if_neg hg, if_neg (fun hmem => hg (lookupN_isSome_iff.2 hmem)),
        g2l_aux_keys gs (acc ++ [(g, c)]) (c + 1)]
      simp only [List.map_append, List.map_cons, List.map_nil, List.append_assoc,
        List.singleton_append]
      refine congrArg _ (congrArg _ (firstSeenAux_congr gs fun x => ?_))
      simp only [List.mem_append, List.mem_cons, List.not_mem_nil, or_false]
      tauto
  termination_by gs => gs.length

theorem g2l_aux_snds :
    ∀ (gs : List Nat) (acc : List (Nat × Nat)),
      acc.map Prod.snd = List.range acc.length →
      (global_to_local_aux acc acc.length gs).map Prod.snd
        = List.range (global_to_local_aux acc acc.length gs).length
  | [], acc, h => h
  | g :: gs, acc, h => by
    rw [global_to_local_aux]
    by_cases hg : (acc.lookup g).isSome = true
    · rw [if_pos hg]
      exact g2l_aux_snds gs acc h
    · rw [if_neg hg]
      have hlen : (acc ++ [(g, acc.length)]).length = acc.length + 1 := by simp
      have hsnd : (acc ++ [(g, acc.length)]).map Prod.snd
          = List.range (acc ++ [(g, acc.length)]).length := by
        rw [List.map_append, h, hlen, List.range_succ]
        rfl
      have := g2l_aux_snds gs (acc ++ [(g, acc.length)]) hsnd
      rwa [hlen] at this
  termination_by gs => gs.length

theorem lookup_snd_index :
    ∀ (m : List (Nat × Nat)) (off : Nat), (m.map Prod.fst).Nodup →
      m.map Prod.snd = (List.range m.length).map (· + off) →
      ∀ g, m.lookup g = if g ∈ m.map Prod.fst
        then some ((m.map Prod.fst).indexOf g + off) else none
  | [], _, _, _, g => by simp [List.lookup]
  | (k, v) :: rest, off, hnd, hsnd, g => by
    have hrange : (List.range (rest.length + 1)).map (· + off)
        = (0 + off) :: (List.range rest.length).map (· + (off + 1)) := by
      rw [List.range_succ_eq_map, List.map_cons, List.map_map]
      refine congrArg _ (congrFun (congrArg _ ?_) _)
      funext x
      show x + 1 + off = x + (off + 1)
      omega
    rw [List.map_cons, List.length_cons, hrange] at hsnd
    have hv : v = off := by
      have := congrArg (·.headI) hsnd
      simpa using this
    have hrest : rest.map Prod.snd = (List.range rest.length).map (· + (off + 1)) := by
      have := congrArg (·.tail) hsnd
      simpa using this
    rw [lookupN_cons]
    by_cases hgk : g = k
    · subst hgk
      simp [hv, List.indexOf_cons_self]
    · have hnd' : (rest.map Prod.fst).Nodup := (List.nodup_cons.1 (by simpa using hnd)).2
      rw [if_neg hgk, lookup_snd_index rest (off + 1) hnd' hrest g]
      by_cases hmem : g ∈ rest.map Prod.fst
      · rw [if_pos hmem, if_pos (by simp [hmem]), List.map_cons,
          List.indexOf_cons_ne _ (fun h => hgk h.symm)]
        refine congrArg _ ?_
        omega
      · rw [if_neg hmem, if_neg ?_]
        simp only [List.map_cons, List.mem_cons]
        rintro (rfl | h)
        · exact hgk rfl
        · exact hmem h

theorem mapM_some_length {α β : Type} {f : α → Option β} :
    ∀ {l : List α} {l' : List β}, l.mapM f = some l' → l'.length = l.length
  | [], l', h => by
    simp only [List.mapM_nil, pure, Option.some_inj] at h
    subst h
    rfl
  | a :: l, l', h => by
    rw [List.mapM_cons] at h
    cases ha : f a with
    | none => rw [ha] at h; simp at h
    | some b =>
      rw [ha] at h
      cases hl : l.mapM f with
      | none => rw [hl] at h; simp at h
      | some bs =>
        rw [hl] at h
        simp only [Option.bind_eq_bind, Option.some_bind, pure, Option.some_inj] at h
        rw [← h, List.length_cons, List.length_cons, mapM_some_length hl]

theorem mapM_eq_map {α β : Type} {f : α → Option β} {g : α → β} :
    ∀ {l : List α}, (∀ a ∈ l, f a = some (g a)) → l.mapM f = some (l.map g)
  | [], _ => rfl
  | a :: l, h => by
    rw [List.mapM_cons, h a (by simp), mapM_eq_map fun x hx => h x (by simp [hx])]
    rfl

/-- **Claim C3.**  After the per-edge period remap: the periods array
has one slot per distinct global period index of the surviving journeys;
every journey's `operating_period` is rewritten to the first-seen-order
local index of its global index; consequently every journey's
`operating_period` is strictly below the length of the periods array. -/
theorem period_remap_spec (b64 : List Byte → String) (data : List NetexData)
    (js js' : List Journey) (ps : List OperatingPeriod)
    (h : remap_periods b64 data js = some (js', ps)) :
    ps.length = (js.map (·.operating_period)).toFinset.card ∧
    js' = js.map (fun j =>
      { j with operating_period :=
          (firstSeen (js.map (·.operating_period))).indexOf j.operating_period }) ∧
    ∀ j' ∈ js', j'.operating_period < ps.length := by
  set globals : List Nat := js.map (·.operating_period) with hglobals
  have hkeys : (global_to_local js).map Prod.fst = firstSeen globals := by
    rw [global_to_local, g2l_aux_keys]
    rfl
  have hnd : ((global_to_local js).map Prod.fst).Nodup := by
    rw [hkeys]
    exact nodup_firstSeenAux globals []
  have hsnds : (global_to_local js).map Prod.snd
      = List.range (global_to_local js).length := by
    exact g2l_aux_snds globals [] rfl
  have hlookup : ∀ g, (global_to_local js).lookup g =
      if g ∈ firstSeen globals then some ((firstSeen globals).indexOf g) else none := by
    intro g
    have := lookup_snd_index (global_to_local js) 0 hnd
      (by rw [hsnds]; simp) g
    simpa [hkeys] using this
  rw [remap_periods] at h
  cases hm1 : List.mapM (fun p => (lookup_operating_period data p.1).map (convert_period b64))
      (global_to_local js) with
  | none => rw [hm1] at h; exact absurd h (by simp)
  | some local_ops =>
    rw [hm1] at h
    cases hm2 : js.mapM (fun j => ((global_to_local js).lookup j.operating_period).map
        (fun l => { j with operating_period := l })) with
    | none => rw [hm2] at h; exact absurd h (by simp)
    | some js'' =>
      rw [hm2] at h
      simp only [Option.some_inj, Prod.mk.injEq] at h
      obtain ⟨hjs, hps⟩ := h
      subst hjs hps
      have hpslen : local_ops.length = (firstSeen globals).length := by
        rw [mapM_some_length hm1, ← hkeys, List.length_map]
      have hcard : (firstSeen globals).length = globals.toFinset.card := by
        rw [firstSeen, ← List.toFinset_card_of_nodup (nodup_firstSeenAux globals [])]
        congr 1
        refine Finset.ext fun x => ?_
        simp only [List.mem_toFinset]
        rw [mem_firstSeenAux]
        simp
      have hmap2 : js.mapM (fun j => ((global_to_local js).lookup j.operating_period).map
          (fun l => { j with operating_period := l })) = some (js.map (fun j =>
            { j with operating_period :=
              (firstSeen globals).indexOf j.operating_period })) := by
        refine mapM_eq_map fun j hj => ?_
        rw [hlookup, if_pos]
        · rfl
        · rw [firstSeen, mem_firstSeenAux]
          exact ⟨List.mem_map_of_mem _ hj, by simp⟩
      rw [hmap2] at hm2
      have hjs'' : js'' = js.map (fun j =>
          { j with operating_period :=
            (firstSeen globals).indexOf j.operating_period }) :=
        (Option.some_inj.1 hm2).symm
      refine ⟨by rw [hpslen, hcard], hjs'', ?_⟩
      intro j' hj'
      rw [hjs''] at hj'
      obtain ⟨j, hj, rfl⟩ := List.mem_map.1 hj'
      show (firstSeen globals).indexOf j.operating_period < local_ops.length
      rw [hpslen]
      refine List.indexOf_lt_length.2 ?_
      rw [firstSeen, mem_firstSeenAux]
      exact ⟨List.mem_map_of_mem _ hj, by simp⟩

/-- Corpus for the period-remap witness: one document with 43 operating
periods (so that global indices 7 and 42 resolve). -/
def remapData : List NetexData :=
  [⟨[], [], [], List.replicate 43 ⟨0, 0, 0, []⟩, [], [], []⟩]

/-- Three journeys referencing global periods 7, 7 and 42, as in the
spec's local-period-remap scenario. -/
def remapJourneys : List Journey :=
  [⟨0, 10, "bus", 7, "L", "C"⟩, ⟨20, 30, "bus", 7, "L", "C"⟩,
   ⟨40, 50, "bus", 42, "L", "C"⟩]

/-- The journeys after the remap: local indices `[0, 0, 1]`. -/
def remapJourneysAfter : List Journey :=
  [⟨0, 10, "bus", 0, "L", "C"⟩, ⟨20, 30, "bus", 0, "L", "C"⟩,
   ⟨40, 50, "bus", 1, "L", "C"⟩]

/-- The two-slot periods array produced for global periods 7 and 42. -/
def remapPeriodsAfter : List OperatingPeriod :=
  [⟨0, 0, "", []⟩, ⟨0, 0, "", []⟩]

/-- Witness for `period_remap_spec` on the `{7, 7, 42}` example. -/
theorem period_remap_spec_witness :
    remapPeriodsAfter.length = (remapJourneys.map (·.operating_period)).toFinset.card ∧
    remapJourneysAfter = remapJourneys.map (fun j =>
      { j with operating_period :=
          (firstSeen (remapJourneys.map (·.operating_period))).indexOf j.operating_period }) ∧
    ∀ j' ∈ remapJourneysAfter, j'.operating_period < remapPeriodsAfter.length :=
  period_remap_spec (fun _ => "") remapData remapJourneys
    remapJourneysAfter remapPeriodsAfter (by decide)

/-! ## `graph.rs`: journey-to-edges mapper (claim C1) -/

/-- `graph::JourneyTransformer` (graph.rs:187): the six lookup tables,
as functions standing for the hash maps built by `from_data`. -/
structure JourneyTransformer where
  authorities : Nat → Option Authority
  day_type_assignments : Nat → Option DayTypeAssignment
  lines : Nat → Option Line
  pattern_ref_to_line_ref : Nat → Option Nat
  point_in_journey_to_stop_ref : Nat → Option Nat
  period_map : Nat → Option Nat

/-- Rust `slice::windows(2)`: the adjacent pairs of a list. -/
def windows2 :
    List TimetabledPassingTime → List (TimetabledPassingTime × TimetabledPassingTime)
  | a :: b :: rest => (a, b) :: windows2 (b :: rest)
  | _ => []

/-- One iteration of the `for window in journey.passing_times.windows(2)`
loop of `JourneyTransformer::to_edges` (graph.rs:255-291).  `none` models
a panic: the `HashMap` index `point_in_journey_to_stop_ref[...]` panics
on a missing key, and `expect`/`unwrap`/index panic when the day-type
assignment, period index, pattern line or authority miss.  Only a miss
of `Nodes::index_by_stop_ref` (the `ref_map`) skips the pair, via
`let ... else continue`.  The panicking line/authority lookups are
hoisted above the edge-map update; this is observationally equal since a
panic discards the local map. -/
def to_edges_step (t : JourneyTransformer) (j : ServiceJourney) (ns : Nodes)
    (m : EdgeMap) (w : TimetabledPassingTime × TimetabledPassingTime) :
    Option EdgeMap :=
  match t.point_in_journey_to_stop_ref w.1.stop_point_in_journey_pattern with
  | none => none
  | some preRef =>
    match ns.ref_map preRef with
    | none => some m
    | some start_indecies =>
      match t.point_in_journey_to_stop_ref w.2.stop_point_in_journey_pattern with
      | none => none
      | some curRef =>
        match ns.ref_map curRef with
        | none => some m
        | some end_indecies =>
          match t.day_type_assignments j.day_type with
          | none => none
          | some dta =>
            match t.period_map dta.operating_period with
            | none => none
            | some period_idx =>
              match t.pattern_ref_to_line_ref j.pattern_ref with
              | none => none
              | some line_ref =>
                match t.lines line_ref with
                | none => none
                | some line =>
                  match t.authorities line.authority with
                  | none => none
                  | some authority =>
                    some (emUpsert (start_indecies.node, end_indecies.node)
                      ⟨start_indecies.node, end_indecies.node, Timetable.default, 65535⟩
                      (fun e => { e with timetable :=
                        { e.timetable with journeys := e.timetable.journeys ++
                          [⟨w.1.departure, w.2.arrival, j.transport_mode, period_idx,
                            line.short_name, authority.short_name⟩] } }) m)

/-- `JourneyTransformer::to_edges` (graph.rs:253): fold the per-window
step over the adjacent pairs, starting from an empty local edge map. -/
def to_edges (t : JourneyTransformer) (j : ServiceJourney) (ns : Nodes) :
    Option EdgeMap :=
  (windows2 j.passing_times).foldlM (to_edges_step t j ns) []

/-- The claim's resolution chain for one adjacent pair: each endpoint
through `stop_point_in_journey → scheduled_stop_point → node_index`. -/
def resolved_pair (t : JourneyTransformer) (ns : Nodes)
    (w : TimetabledPassingTime × TimetabledPassingTime) : Option (Nat × Nat) :=
  match (t.point_in_journey_to_stop_ref w.1.stop_point_in_journey_pattern).bind ns.ref_map,
      (t.point_in_journey_to_stop_ref w.2.stop_point_in_journey_pattern).bind ns.ref_map with
  | some si, some ei => some (si.node, ei.node)
  | _, _ => none

/-- The lookups `to_edges` performs per journey besides the two-stage
stop resolution: day type, period index, line and authority. -/
def journey_lookups_ok (t : JourneyTransformer) (j : ServiceJourney) : Prop :=
  (∀ pt ∈ j.passing_times,
    (t.point_in_journey_to_stop_ref pt.stop_point_in_journey_pattern).isSome = true) ∧
  (∃ dta, t.day_type_assignments j.day_type = some dta ∧
    (t.period_map dta.operating_period).isSome = true) ∧
  (∃ lr line, t.pattern_ref_to_line_ref j.pattern_ref = some lr ∧
    t.lines lr = some line ∧ (t.authorities line.authority).isSome = true)

/-- A journey transformer with empty lookup tables. -/
def emptyTransformer : JourneyTransformer :=
  ⟨fun _ => none, fun _ => none, fun _ => none, fun _ => none, fun _ => none,
   fun _ => none⟩

/-- An empty node table. -/
def emptyNodes : Nodes := ⟨[], fun _ => none, fun _ => none⟩

/-- **Counterexample to claim C1 as stated.**  When the first link of the
chain (`stop_point_in_journey → scheduled_stop_point`) misses for a
pair, `to_edges` does not skip the pair: the `HashMap` index panics and
the mapper aborts (modelled by `none`). -/
theorem to_edges_panics_on_missing_point_ref :
    to_edges emptyTransformer ⟨[⟨100, 0, 0⟩, ⟨200, 5, 5⟩], 0, "bus", 0⟩ emptyNodes
      = none := rfl

theorem mem_windows2 :
    ∀ {l : List TimetabledPassingTime}
      {w : TimetabledPassingTime × TimetabledPassingTime},
      w ∈ windows2 l → w.1 ∈ l ∧ w.2 ∈ l
  | a :: b :: rest, w, hw => by
    rw [windows2] at hw
    rcases List.mem_cons.1 hw with rfl | hw
    · exact ⟨List.mem_cons_self _ _, List.mem_cons_of_mem _ (List.mem_cons_self _ _)⟩
    · have := mem_windows2 hw
      exact ⟨List.mem_cons_of_mem _ this.1, List.mem_cons_of_mem _ this.2⟩

theorem to_edges_fold (t : JourneyTransformer) (j : ServiceJourney) (ns : Nodes)
    (dta : DayTypeAssignment) (hdta : t.day_type_assignments j.day_type = some dta)
    (hperiod : (t.period_map dta.operating_period).isSome = true)
    (lr : Nat) (line : Line) (hlr : t.pattern_ref_to_line_ref j.pattern_ref = some lr)
    (hline : t.lines lr = some line)
    (hauth : (t.authorities line.authority).isSome = true) :
    ∀ (ws : List (TimetabledPassingTime × TimetabledPassingTime)) (m0 : EdgeMap),
      (∀ w ∈ ws,
        (t.point_in_journey_to_stop_ref w.1.stop_point_in_journey_pattern).isSome = true ∧
        (t.point_in_journey_to_stop_ref w.2.stop_point_in_journey_pattern).isSome = true) →
      ∃ m, ws.foldlM (to_edges_step t j ns) m0 = some m ∧
        ∀ k, ((m.lookup k).isSome = true ↔
          (m0.lookup k).isSome = true ∨ k ∈ ws.filterMap (resolved_pair t ns))
  | [], m0, _ => ⟨m0, rfl, fun k => by simp⟩
  | w :: ws, m0, h => by
    obtain ⟨preRef, hpre⟩ := Option.isSome_iff_exists.1 (h w (List.mem_cons_self _ _)).1
    obtain ⟨curRef, hcur⟩ := Option.isSome_iff_exists.1 (h w (List.mem_cons_self _ _)).2
    obtain ⟨periodIdx, hperiodIdx⟩ := Option.isSome_iff_exists.1 hperiod
    obtain ⟨authority, hauthority⟩ := Option.isSome_iff_exists.1 hauth
    have htail := fun m0' => to_edges_fold t j ns dta hdta hperiod lr line hlr hline hauth
      ws m0' (fun x hx => h x (List.mem_cons_of_mem _ hx))
    rw [List.foldlM_cons]
    cases hsi : ns.ref_map preRef with
    | none =>
      have hstep : to_edges_step t j ns m0 w = some m0 := by
        simp only [to_edges_step, hpre, hsi]
      have hnone : resolved_pair t ns w = none := by
        simp only [resolved_pair, hpre, hsi, Option.some_bind]
      obtain ⟨m, hm, hk⟩ := htail m0
      rw [hstep]
      refine ⟨m, hm, fun k => ?_⟩
      rw [hk k, List.filterMap_cons_none hnone]
    | some si =>
      cases hei : ns.ref_map curRef with
      | none =>
        have hstep : to_edges_step t j ns m0 w = some m0 := by
          simp only [to_edges_step, hpre, hsi, hcur, hei]
        have hnone : resolved_pair t ns w = none := by
          simp only [resolved_pair, hpre, hcur, hsi, hei, Option.some_bind]
        obtain ⟨m, hm, hk⟩ := htail m0
        rw [hstep]
        refine ⟨m, hm, fun k => ?_⟩
        rw [hk k, List.filterMap_cons_none hnone]
      | some ei =>
        have hstep : to_edges_step t j ns m0 w = some (emUpsert (si.node, ei.node)
            ⟨si.node, ei.node, Timetable.default, 65535⟩
            (fun e => { e with timetable :=
              { e.timetable with journeys := e.timetable.journeys ++
                [⟨w.1.departure, w.2.arrival, j.transport_mode, periodIdx,
                  line.short_name, authority.short_name⟩] } }) m0) := by
          simp only [to_edges_step, hpre, hsi, hcur, hei, hdta, hperiodIdx, hlr,
            hline, hauthority]
        have hsome : resolved_pair t ns w = some (si.node, ei.node) := by
          simp only [resolved_pair, hpre, hcur, hsi, hei, Option.some_bind]
        obtain ⟨m, hm, hk⟩ := htail (emUpsert (si.node, ei.node)
          ⟨si.node, ei.node, Timetable.default, 65535⟩
          (fun e => { e with timetable :=
            { e.timetable with journeys := e.timetable.journeys ++
              [⟨w.1.departure, w.2.arrival, j.transport_mode, periodIdx,
                line.short_name, authority.short_name⟩] } }) m0)
        rw [hstep]
        refine ⟨m, hm, fun k => ?_⟩
        rw [hk k, List.filterMap_cons_some hsome, lookup_emUpsert]
        by_cases hkk : k = (si.node, ei.node)
        · subst hkk
          simp
        · rw [if_neg hkk]
          simp only [List.mem_cons]
          constructor
          · rintro (h1 | h2)
            · exact Or.inl h1
            · exact Or.inr (Or.inr h2)
          · rintro (h1 | rfl | h2)
            · exact Or.inl h1
            · exact absurd rfl hkk
            · exact Or.inr h2

/-- **Claim C1, amended.**  Under the journey-level lookups succeeding
(day type, period, line, authority) and the first chain link
(`stop_point_in_journey → scheduled_stop_point`) resolving for every
passing time, `to_edges` never aborts, and a pair whose
`scheduled_stop_point → node_index` resolution misses is skipped while
processing continues: the produced edge map has exactly the keys of the
fully resolved adjacent pairs.  (As stated the claim is false: a miss of
the *first* link panics, see `to_edges_panics_on_missing_point_ref`.) -/
theorem to_edges_skips_unresolved (t : JourneyTransformer) (j : ServiceJourney)
    (ns : Nodes) (h : journey_lookups_ok t j) :
    ∃ m, to_edges t j ns = some m ∧
      ∀ k, ((m.lookup k).isSome = true ↔
        k ∈ (windows2 j.passing_times).filterMap (resolved_pair t ns)) := by
  obtain ⟨h1, ⟨dta, hdta, hperiod⟩, ⟨lr, line, hlr, hline, hauth⟩⟩ := h
  obtain ⟨m, hm, hk⟩ := to_edges_fold t j ns dta hdta hperiod lr line hlr hline hauth
    (windows2 j.passing_times) []
    (fun w hw => ⟨h1 w.1 (mem_windows2 hw).1, h1 w.2 (mem_windows2 hw).2⟩)
  refine ⟨m, hm, fun k => ?_⟩
  rw [hk k, lookup_nil]
  simp

/-- Transformer for the `to_edges` witness: three points in journey
resolve to stop refs, but the node table only clusters two of them. -/
def witnessTransformer : JourneyTransformer where
  authorities := fun a => if a = 8 then some ⟨8, "A"⟩ else none
  day_type_assignments := fun d => if d = 7 then some ⟨3, 7, true⟩ else none
  lines := fun l => if l = 6 then some ⟨6, "L", 8⟩ else none
  pattern_ref_to_line_ref := fun p => if p = 5 then some 6 else none
  point_in_journey_to_stop_ref := fun s =>
    if s = 100 then some 10 else if s = 200 then some 20 else
      if s = 300 then some 30 else none
  period_map := fun p => if p = 3 then some 0 else none

/-- Node table for the `to_edges` witness: stop ref 30 is unclustered
(say, dropped by the bounding box), so the second adjacent pair must be
skipped. -/
def witnessNodes : Nodes :=
  ⟨[], fun r => if r = 10 then some ⟨0, 0, 0⟩ else
    if r = 20 then some ⟨1, 0, 1⟩ else none, fun _ => none⟩

/-- A three-stop journey for the `to_edges` witness. -/
def witnessJourney : ServiceJourney :=
  ⟨[⟨100, 0, 0⟩, ⟨200, 10, 10⟩, ⟨300, 20, 20⟩], 7, "bus", 5⟩

/-- Witness for `to_edges_skips_unresolved` at a concrete journey. -/
theorem to_edges_skips_unresolved_witness :
    journey_lookups_ok witnessTransformer witnessJourney ∧
    ∃ m, to_edges witnessTransformer witnessJourney witnessNodes = some m ∧
      ∀ k, ((m.lookup k).isSome = true ↔
        k ∈ (windows2 witnessJourney.passing_times).filterMap
          (resolved_pair witnessTransformer witnessNodes)) := by
  have hok : journey_lookups_ok witnessTransformer witnessJourney :=
    ⟨by decide, ⟨⟨3, 7, true⟩, rfl, rfl⟩, ⟨6, ⟨6, "L", 8⟩, rfl, rfl, rfl⟩⟩
  exact ⟨hok, to_edges_skips_unresolved witnessTransformer witnessJourney
    witnessNodes hok⟩

/-! ## `main.rs`: the hardcoded bounding-box filter (claim C10) -/

/-- The f32 comparison `c < x`: false when `x` is NaN. -/
def qfGtc (x : QF) (c : ℚ) : Bool :=
  match x with
  | none => false
  | some q => decide (c < q)

/-- The f32 comparison `x < c`: false when `x` is NaN. -/
def qfLtc (x : QF) (c : ℚ) : Bool :=
  match x with
  | none => false
  | some q => decide (q < c)

/-- The retain predicate of the stop filter in `parse` (main.rs:93-95):
`stop.long > 5.5 && stop.long < 15.5 && stop.lat > 47.0 && stop.lat < 55.5`. -/
def inBoundingBox (stop : ScheduledStopPoint) : Bool :=
  qfGtc stop.long 5.5 && qfLtc stop.long 15.5 &&
    qfGtc stop.lat 47 && qfLtc stop.lat 55.5

/-- The stop-filter stage of `parse` (main.rs:92-96): applied to every
document of every run — `parse` takes no parameter controlling it, so
the filter is unconditional; the filtered corpus is what
`Graph::from_data` receives. -/
def retain_stops (data : List NetexData) : List NetexData :=
  data.map fun d =>
    { d with scheduled_stop_points := d.scheduled_stop_points.filter inBoundingBox }

/-- **Claim C10.**  The pipeline's stop filter unconditionally discards
every `ScheduledStopPoint` outside the open box
`long ∈ (5.5, 15.5), lat ∈ (47, 55.5)`: in every document of the
filtered corpus a stop survives iff it was present and lies strictly
inside the box (NaN coordinates are also discarded). -/
theorem bounding_box_filter_spec (data : List NetexData) (i : Nat)
    (s : ScheduledStopPoint) :
    ((retain_stops data)[i]?.map (·.scheduled_stop_points)
        = data[i]?.map (fun d => d.scheduled_stop_points.filter inBoundingBox)) ∧
    (s ∈ (data[i]?.map (fun d => d.scheduled_stop_points.filter inBoundingBox)).getD []
      ↔ s ∈ (data[i]?.map (·.scheduled_stop_points)).getD [] ∧ inBoundingBox s = true) ∧
    (inBoundingBox s = true ↔
      (∃ q, s.long = some q ∧ (5.5 : ℚ) < q ∧ q < 15.5) ∧
      (∃ q, s.lat = some q ∧ (47 : ℚ) < q ∧ q < 55.5)) := by
  refine ⟨?_, ?_, ?_⟩
  · rw [retain_stops, List.getElem?_map]
    cases data[i]? with
    | none => rfl
    | some d => rfl
  · cases data[i]? with
    | none => simp
    | some d => simp [List.mem_filter]
  · rw [inBoundingBox]
    cases hlong : s.long with
    | none =>
      simp [qfGtc, hlong]
    | some ql =>
      cases hlat : s.lat with
      | none => simp [qfGtc, qfLtc, hlong, hlat]
      | some qa =>
        simp only [qfGtc, qfLtc, hlong, hlat, Bool.and_eq_true, decide_eq_true_eq,
          Option.some_inj]
        constructor
        · rintro ⟨⟨⟨h1, h2⟩, h3⟩, h4⟩
          exact ⟨⟨ql, rfl, h1, h2⟩, ⟨qa, rfl, h3, h4⟩⟩
        · rintro ⟨⟨q1, hq1, h1, h2⟩, ⟨q2, hq2, h3, h4⟩⟩
          cases hq1
          cases hq2
          exact ⟨⟨⟨h1, h2⟩, h3⟩, h4⟩

/-! ## `main.rs`: the binary edge writer (claim C8) -/

/-- `u16::to_le_bytes`: two little-endian bytes (the argument is reduced
modulo `2 ^ 16` by the byte extractions, matching the Rust casts). -/
def le16 (n : Nat) : List Byte := [n % 256, n / 256 % 256]

/-- `u32::to_le_bytes`: four little-endian bytes (the argument is
reduced modulo `2 ^ 32` by the byte extractions, matching the
`as u32` casts in the source). -/
def le32 (n : Nat) : List Byte :=
  [n % 256, n / 256 % 256, n / 2 ^ 16 % 256, n / 2 ^ 24 % 256]

/-- Little-endian decoder for a 4-byte run. -/
def de32 (l : List Byte) : Nat :=
  match l with
  | [b0, b1, b2, b3] => b0 + 256 * b1 + 2 ^ 16 * b2 + 2 ^ 24 * b3
  | _ => 0

/-- `period_as_bytes` (main.rs:161): `from`, `to`, the `valid_day`
length, then the `valid_day` bytes. -/
def period_as_bytes (p : OperatingPeriod) : List Byte :=
  le32 p.from_ ++ le32 p.to_ ++ le32 p.valid_day.length ++ p.valid_day

/-- The per-journey bytes of `edge_as_bytes` (main.rs:182-186):
arrival, departure, operating period, each as `u16`. -/
def journey_bytes (j : Journey) : List Byte :=
  le16 j.arrival ++ le16 j.departure ++ le16 j.operating_period

/-- `edge_as_bytes` (main.rs:173): start and end node as `u32`,
`walk_seconds` as `u16`, the journey section length `6 * journey_count`
as `u32`, the journey bytes, the byte length of the serialized periods
as `u32`, then the period bytes. -/
def edge_as_bytes (e : Edge) : List Byte :=
  le32 e.start_node ++ le32 e.end_node ++ le16 e.walk_seconds ++
    le32 (e.timetable.journeys.length * 6) ++
    (e.timetable.journeys.map journey_bytes).flatten ++
    le32 (e.timetable.periods.map period_as_bytes).flatten.length ++
    (e.timetable.periods.map period_as_bytes).flatten

theorem de32_le32 (n : Nat) (h : n < 2 ^ 32) : de32 (le32 n) = n := by
  rw [le32, de32]
  omega

theorem le16_length (n : Nat) : (le16 n).length = 2 := rfl

theorem le32_length (n : Nat) : (le32 n).length = 4 := rfl

theorem journey_bytes_length (j : Journey) : (journey_bytes j).length = 6 := rfl

theorem flatten_journeys_length (js : List Journey) :
    (js.map journey_bytes).flatten.length = 6 * js.length := by
  induction js with
  | nil => rfl
  | cons j js ih =>
    rw [List.map_cons, List.flatten_cons, List.length_append, ih,
      journey_bytes_length, List.length_cons]
    ring

theorem flatten_journeys_get (js : List Journey) :
    ∀ (i : Nat) (hi : i < js.length),
      (((js.map journey_bytes).flatten.drop (6 * i)).take 6
        = journey_bytes (js.get ⟨i, hi⟩)) := by
  induction js with
  | nil => intro i hi; exact absurd hi (by simp)
  | cons j js ih =>
    intro i hi
    cases i with
    | zero =>
      rw [List.map_cons, List.flatten_cons, Nat.mul_zero, List.drop_zero,
        List.take_left' (journey_bytes_length j)]
      rfl
    | succ i =>
      rw [List.map_cons, List.flatten_cons]
      have hdrop : (journey_bytes j ++ (js.map journey_bytes).flatten).drop (6 * (i + 1))
          = (js.map journey_bytes).flatten.drop (6 * i) := by
        have h6 : 6 * (i + 1) = (journey_bytes j).length + 6 * i := by
          rw [journey_bytes_length]; ring
        rw [h6, List.drop_append]
      rw [hdrop, ih i (by simpa using hi)]
      rfl

/-- **Claim C8.**  The binary edge layout: bytes 0-3 the start node,
4-7 the end node (little-endian `u32`), 8-9 `walk_seconds`
(little-endian `u16`), 10-13 a `u32` equal to `6 * journey_count`, then
6 bytes per journey (arrival, departure, local operating period, each
`u16`), then a `u32` equal to the byte length of the serialized
periods, then exactly those period bytes. -/
theorem edge_as_bytes_layout (e : Edge)
    (hJ : e.timetable.journeys.length * 6 < 2 ^ 32)
    (hP : (e.timetable.periods.map period_as_bytes).flatten.length < 2 ^ 32) :
    (edge_as_bytes e).length = 18 + 6 * e.timetable.journeys.length +
      (e.timetable.periods.map period_as_bytes).flatten.length ∧
    (edge_as_bytes e).take 4 = le32 e.start_node ∧
    ((edge_as_bytes e).drop 4).take 4 = le32 e.end_node ∧
    ((edge_as_bytes e).drop 8).take 2 = le16 e.walk_seconds ∧
    de32 (((edge_as_bytes e).drop 10).take 4) = 6 * e.timetable.journeys.length ∧
    (∀ (i : Nat) (hi : i < e.timetable.journeys.length),
      (((edge_as_bytes e).drop (14 + 6 * i)).take 6
        = journey_bytes (e.timetable.journeys.get ⟨i, hi⟩))) ∧
    de32 (((edge_as_bytes e).drop (14 + 6 * e.timetable.journeys.length)).take 4)
      = (e.timetable.periods.map period_as_bytes).flatten.length ∧
    (edge_as_bytes e).drop (18 + 6 * e.timetable.journeys.length)
      = (e.timetable.periods.map period_as_bytes).flatten := by
  have h4 : edge_as_bytes e =
      le32 e.start_node ++ (le32 e.end_node ++ (le16 e.walk_seconds ++
        (le32 (e.timetable.journeys.length * 6) ++
          ((e.timetable.journeys.map journey_bytes).flatten ++
            (le32 (e.timetable.periods.map period_as_bytes).flatten.length ++
              (e.timetable.periods.map period_as_bytes).flatten))))) := by
    rw [edge_as_bytes]
    simp [List.append_assoc]
  have h8 : edge_as_bytes e =
      (le32 e.start_node ++ le32 e.end_node) ++ (le16 e.walk_seconds ++
        (le32 (e.timetable.journeys.length * 6) ++
          ((e.timetable.journeys.map journey_bytes).flatten ++
            (le32 (e.timetable.periods.map period_as_bytes).flatten.length ++
              (e.timetable.periods.map period_as_bytes).flatten)))) := by
    rw [edge_as_bytes]
    simp [List.append_assoc]
  have h10 : edge_as_bytes e =
      (le32 e.start_node ++ le32 e.end_node ++ le16 e.walk_seconds) ++
        (le32 (e.timetable.journeys.length * 6) ++
          ((e.timetable.journeys.map journey_bytes).flatten ++
            (le32 (e.timetable.periods.map period_as_bytes).flatten.length ++
              (e.timetable.periods.map period_as_bytes).flatten))) := by
    rw [edge_as_bytes]
    simp [List.append_assoc]
  have h14 : edge_as_bytes e =
      (le32 e.start_node ++ le32 e.end_node ++ le16 e.walk_seconds ++
          le32 (e.timetable.journeys.length * 6)) ++
        ((e.timetable.journeys.map journey_bytes).flatten ++
          (le32 (e.timetable.periods.map period_as_bytes).flatten.length ++
            (e.timetable.periods.map period_as_bytes).flatten)) := by
    rw [edge_as_bytes]
    simp [List.append_assoc]
  have h14J : edge_as_bytes e =
      (le32 e.start_node ++ le32 e.end_node ++ le16 e.walk_seconds ++
          le32 (e.timetable.journeys.length * 6) ++
          (e.timetable.journeys.map journey_bytes).flatten) ++
        (le32 (e.timetable.periods.map period_as_bytes).flatten.length ++
          (e.timetable.periods.map period_as_bytes).flatten) := by
    rw [edge_as_bytes]
    simp [List.append_assoc]
  have h18J : edge_as_bytes e =
      (le32 e.start_node ++ le32 e.end_node ++ le16 e.walk_seconds ++
          le32 (e.timetable.journeys.length * 6) ++
          (e.timetable.journeys.map journey_bytes).flatten ++
          le32 (e.timetable.periods.map period_as_bytes).flatten.length) ++
        (e.timetable.periods.map period_as_bytes).flatten := by
    rw [edge_as_bytes]
  have hlen14J : (le32 e.start_node ++ le32 e.end_node ++ le16 e.walk_seconds ++
      le32 (e.timetable.journeys.length * 6) ++
      (e.timetable.journeys.map journey_bytes).flatten).length
        = 14 + 6 * e.timetable.journeys.length := by
    simp only [List.length_append, flatten_journeys_length, le16_length, le32_length]
  refine ⟨?_, ?_, ?_, ?_, ?_, ?_, ?_, ?_⟩
  · rw [edge_as_bytes]
    simp only [List.length_append, flatten_journeys_length, le16_length, le32_length]
    omega
  · rw [h4, List.take_left' (le32_length _)]
  · rw [h4, List.drop_left' (le32_length _), List.take_left' (le32_length _)]
  · rw [h8,
      List.drop_left' (show (le32 e.start_node ++ le32 e.end_node).length = 8 from rfl),
      List.take_left' (le16_length _)]
  · rw [h10,
      List.drop_left' (show (le32 e.start_node ++ le32 e.end_node ++
        le16 e.walk_seconds).length = 10 from rfl),
      List.take_left' (le32_length _), de32_le32 _ (by omega), Nat.mul_comm]
  · intro i hi
    have hoff : 14 + 6 * i =
        (le32 e.start_node ++ le32 e.end_node ++ le16 e.walk_seconds ++
          le32 (e.timetable.journeys.length * 6)).length + 6 * i := rfl
    rw [h14, hoff, List.drop_append,
      List.drop_append_of_le_length
        (by rw [flatten_journeys_length]; omega),
      List.take_append_of_le_length
        (by rw [List.length_drop, flatten_journeys_length]; omega),
      flatten_journeys_get _ i hi]
  · rw [h14J, List.drop_left' hlen14J, List.take_left' (le32_length _), de32_le32 _ hP]
  · rw [h18J, List.drop_left' (show _ = 18 + 6 * e.timetable.journeys.length by
      rw [List.length_append, hlen14J, le32_length]; omega)]

/-- A concrete edge for the binary-writer witness. -/
def byteWitnessEdge : Edge :=
  ⟨3, 5, ⟨[⟨480, 485, "bus", 0, "L", "C"⟩], [⟨220601, 220930, "fwA=", [127, 3]⟩]⟩, 65535⟩

/-- Witness for `edge_as_bytes_layout` at a concrete edge. -/
theorem edge_as_bytes_layout_witness :
    (edge_as_bytes byteWitnessEdge).length = 18 + 6 * byteWitnessEdge.timetable.journeys.length +
      (byteWitnessEdge.timetable.periods.map period_as_bytes).flatten.length ∧
    (edge_as_bytes byteWitnessEdge).take 4 = le32 byteWitnessEdge.start_node ∧
    ((edge_as_bytes byteWitnessEdge).drop 4).take 4 = le32 byteWitnessEdge.end_node ∧
    ((edge_as_bytes byteWitnessEdge).drop 8).take 2 = le16 byteWitnessEdge.walk_seconds ∧
    de32 (((edge_as_bytes byteWitnessEdge).drop 10).take 4)
      = 6 * byteWitnessEdge.timetable.journeys.length ∧
    (∀ (i : Nat) (hi : i < byteWitnessEdge.timetable.journeys.length),
      (((edge_as_bytes byteWitnessEdge).drop (14 + 6 * i)).take 6
        = journey_bytes (byteWitnessEdge.timetable.journeys.get ⟨i, hi⟩))) ∧
    de32 (((edge_as_bytes byteWitnessEdge).drop
        (14 + 6 * byteWitnessEdge.timetable.journeys.length)).take 4)
      = (byteWitnessEdge.timetable.periods.map period_as_bytes).flatten.length ∧
    (edge_as_bytes byteWitnessEdge).drop
        (18 + 6 * byteWitnessEdge.timetable.journeys.length)
      = (byteWitnessEdge.timetable.periods.map period_as_bytes).flatten :=
  edge_as_bytes_layout byteWitnessEdge (by decide) (by decide)

/-! ## `parser.rs`: the XML extractor (claims C6, C7)

The extractor is modelled on an already-parsed XML tree (I/O errors and
`roxmltree` failures are `Err` paths upstream of everything
modelled here).  The xxh3 hash and the standard library's `f32`/`bool`
string parsers are abstract parameters; `f32` parse results are
`Option QF` (`none` = `Err`, `some none` = a text such as `"NaN"` that
parses to an f32 NaN). -/

/-- An XML element as the extractor sees it: local tag name, `id` and
`ref` attributes, text (empty when absent, matching the pervasive
`unwrap_or_default`), children. -/
inductive Xml where
  | mk (tag idAttr refAttr text : String) (children : List Xml)

def Xml.tag : Xml → String
  | .mk t _ _ _ _ => t

def Xml.idAttr : Xml → String
  | .mk _ i _ _ _ => i

def Xml.refAttr : Xml → String
  | .mk _ _ r _ _ => r

def Xml.text : Xml → String
  | .mk _ _ _ s _ => s

mutual
/-- `roxmltree` `descendants()`: the node itself, then the descendants
of its children, in document order. -/
def Xml.descendants : Xml → List Xml
  | .mk t i r s cs => .mk t i r s cs :: descList cs

/-- Descendants of a forest. -/
def descList : List Xml → List Xml
  | [] => []
  | c :: cs => c.descendants ++ descList cs
end

/-- Outcome of running a piece of Rust code: a panic, a returned `Err`,
or a value. -/
inductive RRes (α : Type) where
  | panicked
  | errored
  | ok (a : α)
deriving DecidableEq

/-- `.map(f).collect::<Result<Vec<_>, _>>()` together with panic
propagation: the first panic or error aborts the traversal. -/
def listMapRR {α β : Type} (f : α → RRes β) : List α → RRes (List β)
  | [] => .ok []
  | a :: rest =>
    match f a with
    | .panicked => .panicked
    | .errored => .errored
    | .ok b =>
      match listMapRR f rest with
      | .panicked => .panicked
      | .errored => .errored
      | .ok bs => .ok (b :: bs)

/-- The bytes of a string, as character codes.  This agrees with the
Rust byte view on ASCII text; for the panic-freedom results only counts
matter, and the UTF-8 byte count is at least the character count. -/
def strBytes (s : String) : List Byte := s.data.map Char.toNat

/-- Rust `f32::clamp(lo, hi)`: `lo` if below, `hi` if above, and NaN
propagates unchanged. -/
def clampQF (x : QF) (lo hi : ℚ) : QF :=
  x.map fun v => if v < lo then lo else if hi < v then hi else v

/-- The child loop of `NetexData::parse_scheduled_stop_point`
(parser.rs:148-169): `ShortName`/`Name` text with double quotes
stripped, `Longitude`/`Latitude` parsed as `f32` (`?` on failure) and
clamped. -/
def ssp_children (pf : String → Option QF) :
    ScheduledStopPoint → List Xml → RRes ScheduledStopPoint
  | acc, [] => .ok acc
  | acc, c :: cs =>
    if c.tag = "ShortName" ∨ c.tag = "Name" then
      ssp_children pf { acc with short_name := c.text.replace "\"" "" } cs
    else if c.tag = "Longitude" then
      match pf c.text with
      | none => .errored
      | some v => ssp_children pf { acc with long := clampQF v (-180) 180 } cs
    else if c.tag = "Latitude" then
      match pf c.text with
      | none => .errored
      | some v => ssp_children pf { acc with lat := clampQF v (-90) 90 } cs
    else ssp_children pf acc cs

/-- `NetexData::parse_scheduled_stop_point` (parser.rs:141). -/
def parse_scheduled_stop_point (hash : String → Nat) (pf : String → Option QF)
    (n : Xml) : RRes ScheduledStopPoint :=
  ssp_children pf ⟨hash n.idAttr, "", some 0, some 0⟩ n.descendants

/-- The descendant loop of `NetexData::parse_service_journey_pattern`
(parser.rs:178-197). -/
def sjp_children (hash : String → Nat) :
    ServiceJourneyPattern → List Xml → ServiceJourneyPattern
  | acc, [] => acc
  | acc, c :: cs =>
    let acc1 := if c.tag = "LineRef" then { acc with line := hash c.refAttr } else acc
    if c.tag = "StopPointInJourneyPattern" then
      sjp_children hash { acc1 with stops := acc1.stops ++
        [⟨hash c.idAttr,
          hash (((c.descendants.find? (fun d => d.tag == "ScheduledStopPointRef")).map
            Xml.refAttr).getD "")⟩] } cs
    else sjp_children hash acc1 cs

/-- `NetexData::parse_service_journey_pattern` (parser.rs:173). -/
def parse_service_journey_pattern (hash : String → Nat) (n : Xml) :
    ServiceJourneyPattern :=
  sjp_children hash ⟨[], 0, hash n.idAttr⟩ n.descendants

/-- The descendant loop over one `TimetabledPassingTime`
(parser.rs:235-251); `parse_minutes` panics on texts shorter than
5 bytes. -/
def tpt_children (hash : String → Nat) :
    TimetabledPassingTime → List Xml → RRes TimetabledPassingTime
  | acc, [] => .ok acc
  | acc, c :: cs =>
    if c.tag = "StopPointInJourneyPatternRef" then
      tpt_children hash { acc with stop_point_in_journey_pattern := hash c.refAttr } cs
    else if c.tag = "ArrivalTime" then
      match parse_minutes (strBytes c.text) with
      | none => .panicked
      | some v => tpt_children hash { acc with arrival := v } cs
    else if c.tag = "DepartureTime" then
      match parse_minutes (strBytes c.text) with
      | none => .panicked
      | some v => tpt_children hash { acc with departure := v } cs
    else tpt_children hash acc cs

/-- One `TimetabledPassingTime` element (parser.rs:234). -/
def parse_timetabled (hash : String → Nat) (tt : Xml) : RRes TimetabledPassingTime :=
  tpt_children hash ⟨0, 0, 0⟩ tt.descendants

/-- `NetexData::parse_service_journey` (parser.rs:201): the four
required pieces are looked up with `unwrap`/`expect` — a missing
`DayTypeRef`, `TransportMode`, `ServiceJourneyPatternRef` or
`passingTimes` panics. -/
def parse_service_journey (hash : String → Nat) (n : Xml) : RRes ServiceJourney :=
  match n.descendants.find? (fun c => c.tag == "DayTypeRef") with
  | none => .panicked
  | some dt =>
    match n.descendants.find? (fun c => c.tag == "TransportMode") with
    | none => .panicked
    | some tm =>
      match n.descendants.find? (fun c => c.tag == "ServiceJourneyPatternRef") with
      | none => .panicked
      | some pr =>
        match n.descendants.find? (fun c => c.tag == "passingTimes") with
        | none => .panicked
        | some ptn =>
          match listMapRR (parse_timetabled hash)
              (ptn.descendants.filter (fun c => c.tag == "TimetabledPassingTime")) with
          | .panicked => .panicked
          | .errored => .errored
          | .ok pts => .ok ⟨pts, hash dt.refAttr, tm.text, hash pr.refAttr⟩

/-- The child loop of `NetexData::parse_operating_period`
(parser.rs:262-272); `parse_date` panics on texts shorter than
10 bytes. -/
def op_children : UicOperatingPeriod → List Xml → RRes UicOperatingPeriod
  | acc, [] => .ok acc
  | acc, c :: cs =>
    if c.tag = "FromDate" then
      match parse_date (strBytes c.text) with
      | none => .panicked
      | some v => op_children { acc with from_ := v } cs
    else if c.tag = "ToDate" then
      match parse_date (strBytes c.text) with
      | none => .panicked
      | some v => op_children { acc with to_ := v } cs
    else if c.tag = "ValidDayBits" then
      match parse_day_bits (strBytes c.text) with
      | none => .panicked
      | some bs => op_children { acc with valid_day_bits := bs } cs
    else op_children acc cs

/-- `NetexData::parse_operating_period` (parser.rs:257). -/
def parse_operating_period (hash : String → Nat) (n : Xml) :
    RRes UicOperatingPeriod :=
  op_children ⟨hash n.idAttr, 0, 0, []⟩ n.descendants

/-- The child loop of `NetexData::parse_day_type_assignment`
(parser.rs:280-294); a failing `bool` parse is an `Err` (`?`). -/
def dta_children (hash : String → Nat) (pb : String → Option Bool) :
    DayTypeAssignment → List Xml → RRes DayTypeAssignment
  | acc, [] => .ok acc
  | acc, c :: cs =>
    if c.tag = "OperatingPeriodRef" then
      dta_children hash pb { acc with operating_period := hash c.refAttr } cs
    else if c.tag = "DayTypeRef" then
      dta_children hash pb { acc with day_type := hash c.refAttr } cs
    else if c.tag = "isAvailable" then
      match pb c.text with
      | none => .errored
      | some b => dta_children hash pb { acc with is_available := b } cs
    else dta_children hash pb acc cs

/-- `NetexData::parse_day_type_assignment` (parser.rs:276). -/
def parse_day_type_assignment (hash : String → Nat) (pb : String → Option Bool)
    (n : Xml) : RRes DayTypeAssignment :=
  dta_children hash pb ⟨0, 0, false⟩ n.descendants

/-- The child loop of `NetexData::parse_line` (parser.rs:303-313). -/
def line_children (hash : String → Nat) : Line → List Xml → Line
  | acc, [] => acc
  | acc, c :: cs =>
    if c.tag = "ShortName" then
      line_children hash { acc with short_name := c.text } cs
    else if c.tag = "AuthorityRef" then
      line_children hash { acc with authority := hash c.refAttr } cs
    else line_children hash acc cs

/-- `NetexData::parse_line` (parser.rs:298); it returns `Result` in the
source but has no failing path. -/
def parse_line (hash : String → Nat) (n : Xml) : Line :=
  line_children hash ⟨hash n.idAttr, "", 0⟩ n.descendants

/-- The child loop of `NetexData::parse_authority` (parser.rs:322-329). -/
def authority_children : Authority → List Xml → Authority
  | acc, [] => acc
  | acc, c :: cs =>
    if c.tag = "ShortName" then
      authority_children { acc with short_name := c.text } cs
    else authority_children acc cs

/-- `NetexData::parse_authority` (parser.rs:317). -/
def parse_authority (hash : String → Nat) (n : Xml) : Authority :=
  authority_children ⟨hash n.idAttr, ""⟩ n.descendants

/-- `NetexData::from_xml` (parser.rs:79) after the XML reading stage:
one descendant sweep per entity kind; `?` errors abort the document
with `Err`, panics abort the run. -/
def from_xml (hash : String → Nat) (pf : String → Option QF)
    (pb : String → Option Bool) (doc : Xml) : RRes NetexData :=
  match listMapRR (parse_scheduled_stop_point hash pf)
      (doc.descendants.filter (fun n => n.tag == "ScheduledStopPoint")) with
  | .panicked => .panicked
  | .errored => .errored
  | .ok ssps =>
    let sjps := (doc.descendants.filter (fun n => n.tag == "ServiceJourneyPattern")).map
      (parse_service_journey_pattern hash)
    match listMapRR (parse_service_journey hash)
        (doc.descendants.filter (fun n => n.tag == "ServiceJourney")) with
    | .panicked => .panicked
    | .errored => .errored
    | .ok sjs =>
      match listMapRR (parse_operating_period hash)
          (doc.descendants.filter (fun n => n.tag == "UicOperatingPeriod")) with
      | .panicked => .panicked
      | .errored => .errored
      | .ok ops =>
        match listMapRR (parse_day_type_assignment hash pb)
            (doc.descendants.filter (fun n => n.tag == "DayTypeAssignment")) with
        | .panicked => .panicked
        | .errored => .errored
        | .ok dtas =>
          let lns := (doc.descendants.filter (fun n => n.tag == "Line")).map
            (parse_line hash)
          let auths := (doc.descendants.filter (fun n => n.tag == "Authority")).map
            (parse_authority hash)
          .ok ⟨ssps, sjps, sjs, ops, dtas, lns, auths⟩

/-! ### Panic-freedom of the extractor (claim C7) -/

theorem parse_minutes_isSome {l : List Byte} (h : 5 ≤ l.length) :
    (parse_minutes l).isSome = true := by
  rcases l with _ | ⟨a, _ | ⟨b, _ | ⟨c, _ | ⟨d, _ | ⟨e, rest⟩⟩⟩⟩⟩ <;>
    first
      | rfl
      | (exfalso; simp only [List.length_cons, List.length_nil] at h; omega)

theorem parse_date_isSome {l : List Byte} (h : 10 ≤ l.length) :
    (parse_date l).isSome = true := by
  rcases l with _ | ⟨a, _ | ⟨b, _ | ⟨c, _ | ⟨d, _ | ⟨e, _ | ⟨f, _ | ⟨g, _ | ⟨i, _ |
    ⟨j, _ | ⟨k, rest⟩⟩⟩⟩⟩⟩⟩⟩⟩⟩ <;>
    first
      | rfl
      | (exfalso; simp only [List.length_cons, List.length_nil] at h; omega)

theorem chunks8_mapM_isSome (l : List Byte) (hlen : l.length % 8 = 0) :
    ((chunks8 l).mapM parse_day_bit_group).isSome = true := by
  induction l using chunks8.induct with
  | case1 => rfl
  | case2 a b c d e f g h rest ih =>
      have hrest : rest.length % 8 = 0 := by
        simp only [List.length_cons] at hlen
        omega
      rw [chunks8, List.mapM_cons]
      have := ih hrest
      cases hm : (chunks8 rest).mapM parse_day_bit_group with
      | none => rw [hm] at this; exact absurd this (by simp)
      | some bs => simp [parse_day_bit_group, hm]
  | case3 l hnil hcons =>
      exfalso
      rcases l with _ | ⟨a, l⟩; · exact hnil rfl
      rcases l with _ | ⟨b, l⟩; · simp at hlen
      rcases l with _ | ⟨c, l⟩; · simp at hlen
      rcases l with _ | ⟨d, l⟩; · simp at hlen
      rcases l with _ | ⟨e, l⟩; · simp at hlen
      rcases l with _ | ⟨f, l⟩; · simp at hlen
      rcases l with _ | ⟨g, l⟩; · simp at hlen
      rcases l with _ | ⟨h, l⟩; · simp at hlen
      exact hcons a b c d e f g h l rfl

theorem parse_day_bits_isSome (l : List Byte) : (parse_day_bits l).isSome = true :=
  chunks8_mapM_isSome (pad_day_bits l) (pad_day_bits_length l)

theorem listMapRR_ne_panicked {α β : Type} {f : α → RRes β} :
    ∀ {l : List α}, (∀ a ∈ l, f a ≠ .panicked) → listMapRR f l ≠ .panicked
  | [], _ => by simp [listMapRR]
  | a :: rest, h => by
    rw [listMapRR]
    cases ha : f a with
    | panicked => exact absurd ha (h a (List.mem_cons_self _ _))
    | errored => simp
    | ok b =>
      have htail := listMapRR_ne_panicked (fun x hx => h x (List.mem_cons_of_mem _ hx))
      cases hrest : listMapRR f rest with
      | panicked => exact absurd hrest htail
      | errored => simp
      | ok bs => simp

theorem ssp_children_ne_panicked (pf : String → Option QF) :
    ∀ (cs : List Xml) (acc : ScheduledStopPoint),
      ssp_children pf acc cs ≠ .panicked
  | [], acc => by simp [ssp_children]
  | c :: cs, acc => by
    rw [ssp_children]
    by_cases h1 : c.tag = "ShortName" ∨ c.tag = "Name"
    · rw [if_pos h1]
      exact ssp_children_ne_panicked pf cs _
    · rw [if_neg h1]
      by_cases h2 : c.tag = "Longitude"
      · rw [if_pos h2]
        cases pf c.text with
        | none => simp
        | some v => exact ssp_children_ne_panicked pf cs _
      · rw [if_neg h2]
        by_cases h3 : c.tag = "Latitude"
        · rw [if_pos h3]
          cases pf c.text with
          | none => simp
          | some v => exact ssp_children_ne_panicked pf cs _
        · rw [if_neg h3]
          exact ssp_children_ne_panicked pf cs _

theorem dta_children_ne_panicked (hash : String → Nat) (pb : String → Option Bool) :
    ∀ (cs : List Xml) (acc : DayTypeAssignment),
      dta_children hash pb acc cs ≠ .panicked
  | [], acc => by simp [dta_children]
  | c :: cs, acc => by
    rw [dta_children]
    by_cases h1 : c.tag = "OperatingPeriodRef"
    · rw [if_pos h1]
      exact dta_children_ne_panicked hash pb cs _
    · rw [if_neg h1]
      by_cases h2 : c.tag = "DayTypeRef"
      · rw [if_pos h2]
        exact dta_children_ne_panicked hash pb cs _
      · rw [if_neg h2]
        by_cases h3 : c.tag = "isAvailable"
        · rw [if_pos h3]
          cases pb c.text with
          | none => simp
          | some b => exact dta_children_ne_panicked hash pb cs _
        · rw [if_neg h3]
          exact dta_children_ne_panicked hash pb cs _

theorem tpt_children_ne_panicked (hash : String → Nat) :
    ∀ (cs : List Xml) (acc : TimetabledPassingTime),
      (∀ c ∈ cs, (c.tag = "ArrivalTime" ∨ c.tag = "DepartureTime") →
        5 ≤ c.text.length) →
      tpt_children hash acc cs ≠ .panicked
  | [], acc, _ => by simp [tpt_children]
  | c :: cs, acc, h => by
    have htail := fun acc' => tpt_children_ne_panicked hash cs acc'
      (fun x hx => h x (List.mem_cons_of_mem _ hx))
    rw [tpt_children]
    by_cases h1 : c.tag = "StopPointInJourneyPatternRef"
    · rw [if_pos h1]
      exact htail _
    · rw [if_neg h1]
      by_cases h2 : c.tag = "ArrivalTime"
      · rw [if_pos h2]
        have hlen : 5 ≤ (strBytes c.text).length := by
          rw [strBytes, List.length_map]
          exact h c (List.mem_cons_self _ _) (Or.inl h2)
        obtain ⟨v, hv⟩ := Option.isSome_iff_exists.1 (parse_minutes_isSome hlen)
        rw [hv]
        exact htail _
      · rw [if_neg h2]
        by_cases h3 : c.tag = "DepartureTime"
        · rw [if_pos h3]
          have hlen : 5 ≤ (strBytes c.text).length := by
            rw [strBytes, List.length_map]
            exact h c (List.mem_cons_self _ _) (Or.inr h3)
          obtain ⟨v, hv⟩ := Option.isSome_iff_exists.1 (parse_minutes_isSome hlen)
          rw [hv]
          exact htail _
        · rw [if_neg h3]
          exact htail _

theorem op_children_ne_panicked :
    ∀ (cs : List Xml) (acc : UicOperatingPeriod),
      (∀ c ∈ cs, (c.tag = "FromDate" ∨ c.tag = "ToDate") → 10 ≤ c.text.length) →
      op_children acc cs ≠ .panicked
  | [], acc, _ => by simp [op_children]
  | c :: cs, acc, h => by
    have htail := fun acc' => op_children_ne_panicked cs acc'
      (fun x hx => h x (List.mem_cons_of_mem _ hx))
    rw [op_children]
    by_cases h1 : c.tag = "FromDate"
    · rw [if_pos h1]
      have hlen : 10 ≤ (strBytes c.text).length := by
        rw [strBytes, List.length_map]
        exact h c (List.mem_cons_self _ _) (Or.inl h1)
      obtain ⟨v, hv⟩ := Option.isSome_iff_exists.1 (parse_date_isSome hlen)
      rw [hv]
      exact htail _
    · rw [if_neg h1]
      by_cases h2 : c.tag = "ToDate"
      · rw [if_pos h2]
        have hlen : 10 ≤ (strBytes c.text).length := by
          rw [strBytes, List.length_map]
          exact h c (List.mem_cons_self _ _) (Or.inr h2)
        obtain ⟨v, hv⟩ := Option.isSome_iff_exists.1 (parse_date_isSome hlen)
        rw [hv]
        exact htail _
      · rw [if_neg h2]
        by_cases h3 : c.tag = "ValidDayBits"
        · rw [if_pos h3]
          obtain ⟨v, hv⟩ := Option.isSome_iff_exists.1
            (parse_day_bits_isSome (strBytes c.text))
          rw [hv]
          exact htail _
        · rw [if_neg h3]
          exact htail _

/-- No required element missing and all time texts at least 5 bytes:
the conditions under which one `ServiceJourney` parses without
panicking. -/
def sj_ok (n : Xml) : Bool :=
  (n.descendants.find? (fun c => c.tag == "DayTypeRef")).isSome &&
  (n.descendants.find? (fun c => c.tag == "TransportMode")).isSome &&
  (n.descendants.find? (fun c => c.tag == "ServiceJourneyPatternRef")).isSome &&
  (match n.descendants.find? (fun c => c.tag == "passingTimes") with
   | none => false
   | some ptn =>
     (ptn.descendants.filter (fun c => c.tag == "TimetabledPassingTime")).all
       fun tt => tt.descendants.all fun c =>
         if c.tag = "ArrivalTime" ∨ c.tag = "DepartureTime" then
           decide (5 ≤ c.text.length)
         else true)

/-- All date texts of one `UicOperatingPeriod` at least 10 bytes. -/
def op_ok (n : Xml) : Bool :=
  n.descendants.all fun c =>
    if c.tag = "FromDate" ∨ c.tag = "ToDate" then decide (10 ≤ c.text.length)
    else true

/-- Well-formedness of a document: every `ServiceJourney` and every
`UicOperatingPeriod` satisfies its local condition. -/
def doc_ok (doc : Xml) : Bool :=
  (doc.descendants.filter (fun n => n.tag == "ServiceJourney")).all sj_ok &&
  (doc.descendants.filter (fun n => n.tag == "UicOperatingPeriod")).all op_ok

theorem parse_service_journey_ne_panicked (hash : String → Nat) (n : Xml)
    (h : sj_ok n = true) : parse_service_journey hash n ≠ .panicked := by
  rw [sj_ok, Bool.and_eq_true, Bool.and_eq_true, Bool.and_eq_true] at h
  obtain ⟨⟨⟨h1, h2⟩, h3⟩, h4⟩ := h
  obtain ⟨dt, hdt⟩ := Option.isSome_iff_exists.1 h1
  obtain ⟨tm, htm⟩ := Option.isSome_iff_exists.1 h2
  obtain ⟨pr, hpr⟩ := Option.isSome_iff_exists.1 h3
  cases hptn : n.descendants.find? (fun c => c.tag == "passingTimes") with
  | none => rw [hptn] at h4; exact absurd h4 (by simp)
  | some ptn =>
    rw [hptn] at h4
    have h4' : ((ptn.descendants.filter (fun c => c.tag == "TimetabledPassingTime")).all
        fun tt => tt.descendants.all fun c =>
          if c.tag = "ArrivalTime" ∨ c.tag = "DepartureTime" then
            decide (5 ≤ c.text.length)
          else true) = true := h4
    have hall := List.all_eq_true.1 h4'
    have hmapped : listMapRR (parse_timetabled hash)
        (ptn.descendants.filter (fun c => c.tag == "TimetabledPassingTime"))
          ≠ .panicked := by
      refine listMapRR_ne_panicked fun tt htt => ?_
      rw [parse_timetabled]
      refine tpt_children_ne_panicked hash _ _ fun c hc htag => ?_
      have := List.all_eq_true.1 (hall tt htt) c hc
      rw [if_pos htag] at this
      exact of_decide_eq_true this
    rw [parse_service_journey]
    simp only [hdt, htm, hpr, hptn]
    cases hm : listMapRR (parse_timetabled hash)
        (ptn.descendants.filter (fun c => c.tag == "TimetabledPassingTime")) with
    | panicked => exact absurd hm hmapped
    | errored => simp
    | ok pts => simp

theorem parse_operating_period_ne_panicked (hash : String → Nat) (n : Xml)
    (h : op_ok n = true) : parse_operating_period hash n ≠ .panicked := by
  rw [parse_operating_period]
  refine op_children_ne_panicked _ _ fun c hc htag => ?_
  have := List.all_eq_true.1 h c hc
  rw [if_pos htag] at this
  exact of_decide_eq_true this

/-- **Claim C7, amended.**  `from_xml` never panics — it returns `Ok`
or `Err` — provided every `ServiceJourney` element carries the required
`DayTypeRef`, `TransportMode`, `ServiceJourneyPatternRef` and
`passingTimes` descendants with well-formed time texts, and every
`UicOperatingPeriod` has well-formed date texts.  XML parse failures and
numeric coercion failures are returned `Err`s.  (As stated the claim is
false: a `ServiceJourney` missing those children makes the extractor
panic rather than return `Err`, see `from_xml_panics_counterexample`.) -/
theorem from_xml_total (hash : String → Nat) (pf : String → Option QF)
    (pb : String → Option Bool) (doc : Xml) (h : doc_ok doc = true) :
    from_xml hash pf pb doc ≠ RRes.panicked := by
  rw [doc_ok, Bool.and_eq_true] at h
  obtain ⟨hsj, hop⟩ := h
  rw [from_xml]
  have hssp : listMapRR (parse_scheduled_stop_point hash pf)
      (doc.descendants.filter (fun n => n.tag == "ScheduledStopPoint"))
        ≠ .panicked :=
    listMapRR_ne_panicked fun n _ => by
      rw [parse_scheduled_stop_point]
      exact ssp_children_ne_panicked pf _ _
  cases h1 : listMapRR (parse_scheduled_stop_point hash pf)
      (doc.descendants.filter (fun n => n.tag == "ScheduledStopPoint")) with
  | panicked => exact absurd h1 hssp
  | errored => simp
  | ok ssps =>
    have hsjs : listMapRR (parse_service_journey hash)
        (doc.descendants.filter (fun n => n.tag == "ServiceJourney"))
          ≠ .panicked :=
      listMapRR_ne_panicked fun n hn => parse_service_journey_ne_panicked hash n
        (List.all_eq_true.1 hsj n hn)
    cases h2 : listMapRR (parse_service_journey hash)
        (doc.descendants.filter (fun n => n.tag == "ServiceJourney")) with
    | panicked => exact absurd h2 hsjs
    | errored => simp
    | ok sjs =>
      have hops : listMapRR (parse_operating_period hash)
          (doc.descendants.filter (fun n => n.tag == "UicOperatingPeriod"))
            ≠ .panicked :=
        listMapRR_ne_panicked fun n hn => parse_operating_period_ne_panicked hash n
          (List.all_eq_true.1 hop n hn)
      cases h3 : listMapRR (parse_operating_period hash)
          (doc.descendants.filter (fun n => n.tag == "UicOperatingPeriod")) with
      | panicked => exact absurd h3 hops
      | errored => simp
      | ok ops =>
        have hdtas : listMapRR (parse_day_type_assignment hash pb)
            (doc.descendants.filter (fun n => n.tag == "DayTypeAssignment"))
              ≠ .panicked :=
          listMapRR_ne_panicked fun n _ => by
            rw [parse_day_type_assignment]
            exact dta_children_ne_panicked hash pb _ _
        cases h4 : listMapRR (parse_day_type_assignment hash pb)
            (doc.descendants.filter (fun n => n.tag == "DayTypeAssignment")) with
        | panicked => exact absurd h4 hdtas
        | errored => simp
        | ok dtas => simp

/-- **Counterexample to claim C7 as stated.**  A document containing a
`ServiceJourney` element with no descendants: the extractor panics on
the missing `DayTypeRef` (`unwrap` of `None`) instead of returning an
`Err`. -/
theorem from_xml_panics_counterexample :
    from_xml (fun _ => 0) (fun _ => some (some 0)) (fun _ => some true)
      (.mk "ServiceJourney" "" "" "" []) = RRes.panicked := rfl

/-- A well-formed document for the `from_xml` totality witness. -/
def witnessDoc : Xml :=
  .mk "root" "" "" "" [
    .mk "ServiceJourney" "sj1" "" "" [
      .mk "DayTypeRef" "" "dt1" "" [],
      .mk "TransportMode" "" "" "bus" [],
      .mk "ServiceJourneyPatternRef" "" "p1" "" [],
      .mk "passingTimes" "" "" "" [
        .mk "TimetabledPassingTime" "" "" "" [
          .mk "StopPointInJourneyPatternRef" "" "s1" "" [],
          .mk "ArrivalTime" "" "" "08:00:00" [],
          .mk "DepartureTime" "" "" "08:01:00" []]]],
    .mk "UicOperatingPeriod" "op1" "" "" [
      .mk "FromDate" "" "" "2022-06-13T00:00:00" [],
      .mk "ToDate" "" "" "2022-06-14T00:00:00" [],
      .mk "ValidDayBits" "" "" "1111111011" []]]

/-- Witness for `from_xml_total` at a concrete document. -/
theorem from_xml_total_witness :
    doc_ok witnessDoc = true ∧
    from_xml (fun _ => 0) (fun _ => some (some 0)) (fun _ => some true) witnessDoc
      ≠ RRes.panicked :=
  ⟨by decide, from_xml_total (fun _ => 0) (fun _ => some (some 0))
    (fun _ => some true) witnessDoc (by decide)⟩

/-! ### Coordinate clamping (claim C6) -/

/-- An f32 coordinate within symmetric bounds; NaN (`none`) is not. -/
def coordInRange (x : QF) (b : ℚ) : Prop :=
  x = none ∨ ∃ q, x = some q ∧ -b ≤ q ∧ q ≤ b

theorem clampQF_inRange (v : QF) (b : ℚ) (hb : 0 ≤ b) :
    coordInRange (clampQF v (-b) b) b := by
  cases v with
  | none => exact Or.inl rfl
  | some q =>
    refine Or.inr ⟨_, rfl, ?_⟩
    show -b ≤ (if q < -b then -b else if b < q then b else q) ∧
      (if q < -b then -b else if b < q then b else q) ≤ b
    split_ifs with h1 h2 <;> constructor <;> linarith

theorem nan_propagates_clampQF : clampQF none (-180) 180 = none := rfl

theorem ssp_children_coords (pf : String → Option QF) :
    ∀ (cs : List Xml) (acc : ScheduledStopPoint) (s : ScheduledStopPoint),
      coordInRange acc.long 180 → coordInRange acc.lat 90 →
      ssp_children pf acc cs = .ok s →
      coordInRange s.long 180 ∧ coordInRange s.lat 90
  | [], acc, s, hlong, hlat, h => by
    rw [ssp_children] at h
    cases h
    exact ⟨hlong, hlat⟩
  | c :: cs, acc, s, hlong, hlat, h => by
    rw [ssp_children] at h
    by_cases h1 : c.tag = "ShortName" ∨ c.tag = "Name"
    · rw [if_pos h1] at h
      exact ssp_children_coords pf cs
        { acc with short_name := c.text.replace "\"" "" } s hlong hlat h
    · rw [if_neg h1] at h
      by_cases h2 : c.tag = "Longitude"
      · rw [if_pos h2] at h
        cases hpf : pf c.text with
        | none => rw [hpf] at h; exact absurd h (by simp)
        | some v =>
          simp only [hpf] at h
          exact ssp_children_coords pf cs
            { acc with long := clampQF v (-180) 180 } s
            (clampQF_inRange v 180 (by norm_num)) hlat h
      · rw [if_neg h2] at h
        by_cases h3 : c.tag = "Latitude"
        · rw [if_pos h3] at h
          cases hpf : pf c.text with
          | none => rw [hpf] at h; exact absurd h (by simp)
          | some v =>
            simp only [hpf] at h
            exact ssp_children_coords pf cs
              { acc with lat := clampQF v (-90) 90 } s hlong
              (clampQF_inRange v 90 (by norm_num)) h
        · rw [if_neg h3] at h
          exact ssp_children_coords pf cs acc s hlong hlat h

theorem listMapRR_ok_mem {α β : Type} {f : α → RRes β} :
    ∀ {l : List α} {l' : List β}, listMapRR f l = .ok l' →
      ∀ b ∈ l', ∃ a ∈ l, f a = .ok b
  | [], l', h => by
    rw [listMapRR] at h
    cases h
    intro b hb
    exact absurd hb (by simp)
  | a :: rest, l', h => by
    rw [listMapRR] at h
    cases ha : f a with
    | panicked => rw [ha] at h; exact absurd h (by simp)
    | errored => rw [ha] at h; exact absurd h (by simp)
    | ok b =>
      rw [ha] at h
      cases hrest : listMapRR f rest with
      | panicked => rw [hrest] at h; exact absurd h (by simp)
      | errored => rw [hrest] at h; exact absurd h (by simp)
      | ok bs =>
        rw [hrest] at h
        cases h
        intro x hx
        rcases List.mem_cons.1 hx with rfl | hx
        · exact ⟨a, List.mem_cons_self _ _, ha⟩
        · obtain ⟨a', ha', hfa'⟩ := listMapRR_ok_mem hrest x hx
          exact ⟨a', List.mem_cons_of_mem _ ha', hfa'⟩

/-- **Claim C6, amended.**  For every document from which `from_xml`
returns `Ok`, every parsed `ScheduledStopPoint` has its longitude in
`[-180, 180]` and latitude in `[-90, 90]` — except that an f32 NaN
(which `"NaN".parse::<f32>()` produces and `clamp` propagates) passes
through unclamped.  (As stated — for *every* text that parses as f32 —
the claim is false, see `from_xml_nan_counterexample`.) -/
theorem from_xml_coords_clamped (hash : String → Nat) (pf : String → Option QF)
    (pb : String → Option Bool) (doc : Xml) (d : NetexData)
    (h : from_xml hash pf pb doc = .ok d) :
    ∀ s ∈ d.scheduled_stop_points,
      coordInRange s.long 180 ∧ coordInRange s.lat 90 := by
  rw [from_xml] at h
  cases h1 : listMapRR (parse_scheduled_stop_point hash pf)
      (doc.descendants.filter (fun n => n.tag == "ScheduledStopPoint")) with
  | panicked => rw [h1] at h; exact absurd h (by simp)
  | errored => rw [h1] at h; exact absurd h (by simp)
  | ok ssps =>
    rw [h1] at h
    have hssps : d.scheduled_stop_points = ssps := by
      cases h2 : listMapRR (parse_service_journey hash)
          (doc.descendants.filter (fun n => n.tag == "ServiceJourney")) with
      | panicked => rw [h2] at h; exact absurd h (by simp)
      | errored => rw [h2] at h; exact absurd h (by simp)
      | ok sjs =>
        rw [h2] at h
        cases h3 : listMapRR (parse_operating_period hash)
            (doc.descendants.filter (fun n => n.tag == "UicOperatingPeriod")) with
        | panicked => rw [h3] at h; exact absurd h (by simp)
        | errored => rw [h3] at h; exact absurd h (by simp)
        | ok ops =>
          rw [h3] at h
          cases h4 : listMapRR (parse_day_type_assignment hash pb)
              (doc.descendants.filter (fun n => n.tag == "DayTypeAssignment")) with
          | panicked => rw [h4] at h; exact absurd h (by simp)
          | errored => rw [h4] at h; exact absurd h (by simp)
          | ok dtas =>
            rw [h4] at h
            simp only [RRes.ok.injEq] at h
            rw [← h]
    intro s hs
    rw [hssps] at hs
    obtain ⟨n, _, hn⟩ := listMapRR_ok_mem h1 s hs
    rw [parse_scheduled_stop_point] at hn
    exact ssp_children_coords pf n.descendants _ s
      (Or.inr ⟨0, rfl, by norm_num, by norm_num⟩)
      (Or.inr ⟨0, rfl, by norm_num, by norm_num⟩) hn

/-- A document whose single stop has a `Longitude` text of `"NaN"`. -/
def nanDoc : Xml :=
  .mk "ScheduledStopPoint" "s1" "" "" [.mk "Longitude" "" "" "NaN" []]

/-- An f32 parser model agreeing with Rust on the two texts the
counterexample uses: `"NaN"` parses successfully to NaN. -/
def pfNaN : String → Option QF :=
  fun t => if t = "NaN" then some none else some (some 0)

/-- The stop's coordinates lie in the valid geographic ranges (false
for NaN, as in Rust, where NaN compares false with everything). -/
def ssp_coords_in_range (s : ScheduledStopPoint) : Bool :=
  (match s.long with
   | none => false
   | some q => decide (-180 ≤ q ∧ q ≤ 180)) &&
  (match s.lat with
   | none => false
   | some q => decide (-90 ≤ q ∧ q ≤ 90))

/-- **Counterexample to claim C6 as stated.**  `"NaN"` parses as an f32,
`clamp` returns NaN for a NaN input, and `from_xml` returns `Ok` with a
stop whose longitude is outside every range. -/
theorem from_xml_nan_counterexample :
    from_xml (fun _ => 0) pfNaN (fun _ => some true) nanDoc
      = RRes.ok ⟨[⟨0, "", none, some 0⟩], [], [], [], [], [], []⟩ ∧
    ssp_coords_in_range ⟨0, "", none, some 0⟩ = false :=
  ⟨rfl, rfl⟩

/-- A document whose single stop has an out-of-range longitude text. -/
def clampDoc : Xml :=
  .mk "ScheduledStopPoint" "s1" "" "" [.mk "Longitude" "" "" "200" []]

/-- An f32 parser model mapping `"200"` to 200. -/
def pf200 : String → Option QF :=
  fun t => if t = "200" then some (some 200) else some (some 0)

/-- The parse of `clampDoc`: longitude clamped to 180. -/
def clampData : NetexData := ⟨[⟨0, "", some 180, some 0⟩], [], [], [], [], [], []⟩

/-- Witness for `from_xml_coords_clamped`: longitude 200 is clamped to
180, inside the valid range. -/
theorem from_xml_coords_clamped_witness :
    from_xml (fun _ => 0) pf200 (fun _ => some true) clampDoc = .ok clampData ∧
    ∀ s ∈ clampData.scheduled_stop_points,
      coordInRange s.long 180 ∧ coordInRange s.lat 90 :=
  ⟨rfl, from_xml_coords_clamped (fun _ => 0) pf200 (fun _ => some true)
    clampDoc clampData rfl⟩

end NetexParse
